import Mathlib

/-!
Verification development for the QNX Remote Process Monitor server
(`qnx-rpm-server`).  Each section shallowly embeds one component of the
C/C++ source and proves or refutes the specification claims about it.

Conventions:
* `std::map` / association data is modelled by association lists over `Int`
  keys with unique-key well-formedness invariants.
* `double` arithmetic is modelled over `ℚ` (the claims at issue are about
  the algebraic shape of the computations, not rounding).
* OS calls (`crypt`, `/proc` reads, signal delivery) are inputs to the
  embedded functions.
-/

namespace RPM

/-! ## Credential store (`src/src/Authenticator.cpp`) -/

namespace Auth

/-- User record parsed from one line of the login file
(`Authenticator::UserEntry`).  `type` is 0 = viewer, 1 = admin. -/
structure UserEntry where
  username : String
  hash : String
  salt : String
  type : Int
  deriving DecidableEq, Repr

/-- `line.find(":")` followed by `substr`: splits a character list at its
first colon, returning the part before and the part after, or `none` when no
colon occurs (`std::string::npos`). -/
def breakColon : List Char → Option (List Char × List Char)
  | [] => none
  | c :: rest =>
    if c = ':' then some ([], rest)
    else (breakColon rest).map (fun p => (c :: p.1, p.2))

/-- `std::from_chars` on an `int` target as used by `UserEntry::FromString`:
parses an optional minus sign followed by a maximal digit prefix; when no
digit can be parsed the target keeps its zero-initialised value. -/
def fromCharsInt (cs : List Char) : Int :=
  let core (l : List Char) : Int :=
    (l.takeWhile Char.isDigit).foldl (fun a c => a * 10 + ((c.toNat : Int) - 48)) (0 : Int)
  match cs with
  | '-' :: rest => if (rest.takeWhile Char.isDigit) = [] then 0 else - core rest
  | l => core l

/-- `Authenticator::UserEntry::FromString`: extracts username, hash and salt
up to the first three colons; everything after the third colon (colons
included) is the type field, parsed with `from_chars`; values outside {0,1}
are rejected. -/
def UserEntry.FromString (line : String) : Option UserEntry :=
  match breakColon line.data with
  | none => none
  | some (u, r1) =>
    match breakColon r1 with
    | none => none
    | some (h, r2) =>
      match breakColon r2 with
      | none => none
      | some (s, type_str) =>
        let type_value := fromCharsInt type_str
        if 0 > type_value ∨ type_value > 1 then none
        else some ⟨⟨u⟩, ⟨h⟩, ⟨s⟩, type_value⟩

/-- `Authenticator::generate_hash`: delegates to the platform `crypt`
primitive, which is an input of the model. -/
def generate_hash (crypt : String → String → String) (password salt : String) : String :=
  crypt password salt

/-- The scan loop of `Authenticator::ValidateLogin`: returns `true` at the
first parsed record whose stored hash equals the hash of the given password
with that record's salt.  The username argument is not consulted by the
source. -/
def validateLoop (crypt : String → String → String) (password : String) :
    List String → Bool
  | [] => false
  | line :: rest =>
    match UserEntry.FromString line with
    | none => validateLoop crypt password rest
    | some e =>
      if generate_hash crypt password e.salt = e.hash then true
      else validateLoop crypt password rest

/-- `Authenticator::ValidateLogin`.  `file = none` models a missing or
unreadable login file. -/
def ValidateLogin (crypt : String → String → String)
    (file : Option (List String)) (_username password : String) : Bool :=
  match file with
  | none => false
  | some lines => validateLoop crypt password lines

/-- The claim's (spec's) validate: returns the role of the first stored
record whose username **and** hash both match, `none` otherwise.  Written
from the spec's words for comparison with `ValidateLogin`. -/
def validateSpec (crypt : String → String → String)
    (file : Option (List String)) (username password : String) : Option Int :=
  match file with
  | none => none
  | some lines =>
    let go : List String → Option Int := fun l =>
      l.foldr (fun line acc =>
        match UserEntry.FromString line with
        | none => acc
        | some e =>
          if e.username = username ∧ crypt password e.salt = e.hash then some e.type
          else acc) none
    go lines

/-- Demonstration stand-in for the platform `crypt` primitive. -/
def cryptDemo (password salt : String) : String := salt ++ "#" ++ password

end Auth

/-! ## Group index (`src/src/ProcessGroup.cpp`)

`std::map` members are modelled as association lists with unique keys;
`std::set<pid_t>` as duplicate-free lists. -/

namespace Grp

/-- `std::map::find`. -/
def alookup {α : Type} (k : Int) : List (Int × α) → Option α
  | [] => none
  | (k', v) :: t => if k' = k then some v else alookup k t

/-- `map[k] = v` (insert or assign). -/
def ainsert {α : Type} (k : Int) (v : α) : List (Int × α) → List (Int × α)
  | [] => [(k, v)]
  | (k', v') :: t => if k' = k then (k, v) :: t else (k', v') :: ainsert k v t

/-- `std::map::erase(k)`. -/
def aerase {α : Type} (k : Int) : List (Int × α) → List (Int × α)
  | [] => []
  | (k', v') :: t => if k' = k then t else (k', v') :: aerase k t

/-- In-place update of the mapped value at an existing key
(`map.find(k)->second = f(...)`). -/
def amodify {α : Type} (k : Int) (f : α → α) : List (Int × α) → List (Int × α)
  | [] => []
  | (k', v) :: t => if k' = k then (k', f v) :: t else (k', v) :: amodify k f t

/-- `std::set::insert`. -/
def sinsert (x : Int) (l : List Int) : List Int :=
  if x ∈ l then l else x :: l

/-- `std::set::erase`. -/
def serase (x : Int) (l : List Int) : List Int :=
  l.filter (fun y => y ≠ x)

/-- One `qnx::process::Group`. -/
structure Group where
  name : String
  priority : Int
  description : String
  processes : List Int
  deriving DecidableEq, Repr

/-- The `ProcessGroup` singleton's state: `groups_`, `process_group_map_`
and `next_group_id_`. -/
structure GroupState where
  groups : List (Int × Group)
  procMap : List (Int × Int)
  nextId : Int
  deriving DecidableEq, Repr

/-- State after `ProcessGroup::init`. -/
def initState : GroupState := ⟨[], [], 1⟩

/-- `ProcessGroup::createGroup`. -/
def createGroup (name : String) (priority : Int) (description : String)
    (s : GroupState) : Int × GroupState :=
  (s.nextId,
   { groups := ainsert s.nextId ⟨name, priority, description, []⟩ s.groups
     procMap := s.procMap
     nextId := s.nextId + 1 })

/-- `ProcessGroup::deleteGroup`: unmaps every member, then erases the
group. -/
def deleteGroup (group_id : Int) (s : GroupState) : Bool × GroupState :=
  match alookup group_id s.groups with
  | none => (false, s)
  | some g =>
    (true,
     { groups := aerase group_id s.groups
       procMap := g.processes.foldl (fun m p => aerase p m) s.procMap
       nextId := s.nextId })

/-- `ProcessGroup::renameGroup`. -/
def renameGroup (group_id : Int) (new_name : String) (s : GroupState) :
    Bool × GroupState :=
  match alookup group_id s.groups with
  | none => (false, s)
  | some _ =>
    (true, { s with groups := amodify group_id (fun g => { g with name := new_name }) s.groups })

/-- `ProcessGroup::addProcessToGroup`.  `exists_` models
`ProcessControl::exists` (a live-PID oracle). -/
def addProcessToGroup (exists_ : Int → Bool) (pid group_id : Int)
    (s : GroupState) : Bool × GroupState :=
  match alookup group_id s.groups with
  | none => (false, s)
  | some _ =>
    if ¬ exists_ pid then (false, s)
    else
      let groups1 :=
        match alookup pid s.procMap with
        | none => s.groups
        | some prev_group_id =>
          if prev_group_id ≠ group_id ∧ (alookup prev_group_id s.groups).isSome then
            amodify prev_group_id (fun g => { g with processes := serase pid g.processes }) s.groups
          else s.groups
      (true,
       { groups := amodify group_id (fun g => { g with processes := sinsert pid g.processes }) groups1
         procMap := ainsert pid group_id s.procMap
         nextId := s.nextId })

/-- `ProcessGroup::removeProcessFromGroup`. -/
def removeProcessFromGroup (pid group_id : Int) (s : GroupState) :
    Bool × GroupState :=
  match alookup group_id s.groups with
  | none => (false, s)
  | some g =>
    if pid ∈ g.processes then
      (true,
       { groups := amodify group_id (fun g' => { g' with processes := serase pid g'.processes }) s.groups
         procMap := aerase pid s.procMap
         nextId := s.nextId })
    else (false, s)

/-- `ProcessGroup::getProcessGroup`: the stored mapping, or `-1` when the
pid is unmapped. -/
def getProcessGroup (pid : Int) (s : GroupState) : Int :=
  match alookup pid s.procMap with
  | some gid => gid
  | none => -1

/-- `ProcessGroup::getProcessesInGroup`: the member set, or empty for an
unknown group. -/
def getProcessesInGroup (group_id : Int) (s : GroupState) : List Int :=
  match alookup group_id s.groups with
  | some g => g.processes
  | none => []

/-! ### Association-list lemmas -/

theorem alookup_ainsert_self {α : Type} (k : Int) (v : α) (l : List (Int × α)) :
    alookup k (ainsert k v l) = some v := by
  induction l with
  | nil => simp [ainsert, alookup]
  | cons hd t ih =>
    obtain ⟨k', v'⟩ := hd
    by_cases h : k' = k <;> simp [ainsert, alookup, h, ih]

theorem alookup_ainsert_ne {α : Type} {k k' : Int} (v : α) (l : List (Int × α))
    (h : k' ≠ k) : alookup k' (ainsert k v l) = alookup k' l := by
  induction l with
  | nil => simp [ainsert, alookup, Ne.symm h]
  | cons hd t ih =>
    obtain ⟨k'', v''⟩ := hd
    by_cases h1 : k'' = k
    · subst h1
      simp [ainsert, alookup, Ne.symm h]
    · simp [ainsert, alookup, h1, ih]

theorem alookup_aerase_ne {α : Type} {k k' : Int} (l : List (Int × α))
    (h : k' ≠ k) : alookup k' (aerase k l) = alookup k' l := by
  induction l with
  | nil => simp [aerase]
  | cons hd t ih =>
    obtain ⟨k'', v''⟩ := hd
    by_cases h1 : k'' = k
    · subst h1
      simp [aerase, alookup, Ne.symm h]
    · simp [aerase, alookup, h1, ih]

theorem aerase_keys_sublist {α : Type} (k : Int) (l : List (Int × α)) :
    ((aerase k l).map Prod.fst).Sublist (l.map Prod.fst) := by
  induction l with
  | nil => simp [aerase]
  | cons hd t ih =>
    obtain ⟨k', v'⟩ := hd
    by_cases h : k' = k
    · simp [aerase, h]
    · simpa [aerase, h] using ih.cons₂ k'

theorem nodup_aerase_keys {α : Type} (k : Int) {l : List (Int × α)}
    (h : (l.map Prod.fst).Nodup) : ((aerase k l).map Prod.fst).Nodup :=
  h.sublist (aerase_keys_sublist k l)

theorem alookup_eq_none_of_not_mem_keys {α : Type} {k : Int} {l : List (Int × α)}
    (h : k ∉ l.map Prod.fst) : alookup k l = none := by
  induction l with
  | nil => rfl
  | cons hd t ih =>
    obtain ⟨k', v'⟩ := hd
    simp only [List.map_cons, List.mem_cons] at h
    push_neg at h
    simp [alookup, Ne.symm h.1, ih h.2]

theorem mem_keys_of_alookup_some {α : Type} {k : Int} {l : List (Int × α)} {v : α}
    (h : alookup k l = some v) : k ∈ l.map Prod.fst := by
  induction l with
  | nil => simp [alookup] at h
  | cons hd t ih =>
    obtain ⟨k', v'⟩ := hd
    by_cases h1 : k' = k
    · simp [h1]
    · simp only [alookup, h1, if_false] at h
      simp [ih h]

theorem alookup_aerase_self {α : Type} {k : Int} {l : List (Int × α)}
    (h : (l.map Prod.fst).Nodup) : alookup k (aerase k l) = none := by
  induction l with
  | nil => rfl
  | cons hd t ih =>
    obtain ⟨k', v'⟩ := hd
    simp only [List.map_cons, List.nodup_cons] at h
    by_cases h1 : k' = k
    · subst h1
      simpa [aerase] using alookup_eq_none_of_not_mem_keys h.1
    · simp [aerase, alookup, h1, ih h.2]

theorem alookup_none_aerase {α : Type} {k : Int} (q : Int) {l : List (Int × α)}
    (h : alookup k l = none) : alookup k (aerase q l) = none := by
  induction l with
  | nil => rfl
  | cons hd t ih =>
    obtain ⟨k', v'⟩ := hd
    by_cases h1 : k' = k
    · simp [alookup, h1] at h
    · simp only [alookup, h1, if_false] at h
      by_cases h2 : k' = q
      · simpa [aerase, h2] using h
      · simp [aerase, alookup, h1, h2, ih h]

theorem amodify_keys {α : Type} (k : Int) (f : α → α) (l : List (Int × α)) :
    (amodify k f l).map Prod.fst = l.map Prod.fst := by
  induction l with
  | nil => rfl
  | cons hd t ih =>
    obtain ⟨k', v'⟩ := hd
    by_cases h : k' = k <;> simp [amodify, h, ih]

theorem alookup_amodify_self {α : Type} (k : Int) (f : α → α) (l : List (Int × α)) :
    alookup k (amodify k f l) = (alookup k l).map f := by
  induction l with
  | nil => rfl
  | cons hd t ih =>
    obtain ⟨k', v'⟩ := hd
    by_cases h : k' = k <;> simp [amodify, alookup, h, ih]

theorem alookup_amodify_ne {α : Type} {k k' : Int} (f : α → α) (l : List (Int × α))
    (h : k' ≠ k) : alookup k' (amodify k f l) = alookup k' l := by
  induction l with
  | nil => rfl
  | cons hd t ih =>
    obtain ⟨k'', v''⟩ := hd
    by_cases h1 : k'' = k
    · subst h1
      simp [amodify, alookup, Ne.symm h]
    · simp [amodify, alookup, h1, ih]

theorem ainsert_keys {α : Type} (k : Int) (v : α) (l : List (Int × α)) :
    (ainsert k v l).map Prod.fst =
      if k ∈ l.map Prod.fst then l.map Prod.fst else l.map Prod.fst ++ [k] := by
  induction l with
  | nil => simp [ainsert]
  | cons hd t ih =>
    obtain ⟨k', v'⟩ := hd
    by_cases h1 : k' = k
    · simp [ainsert, h1]
    · simp only [ainsert, if_neg h1, List.map_cons, ih, List.mem_cons]
      by_cases h2 : k ∈ t.map Prod.fst
      · simp [h2, Ne.symm h1]
      · simp [h2, Ne.symm h1]

theorem nodup_ainsert_keys {α : Type} (k : Int) (v : α) {l : List (Int × α)}
    (h : (l.map Prod.fst).Nodup) : ((ainsert k v l).map Prod.fst).Nodup := by
  rw [ainsert_keys]
  by_cases h1 : k ∈ l.map Prod.fst
  · simpa [h1] using h
  · simp only [h1, if_false, List.nodup_append, List.nodup_cons]
    refine ⟨h, by simp, ?_⟩
    intro a ha hak
    simp only [List.mem_singleton] at hak
    exact h1 (hak ▸ ha)

/-! ### Set-operation lemmas -/

theorem mem_sinsert {x y : Int} (l : List Int) :
    y ∈ sinsert x l ↔ y = x ∨ y ∈ l := by
  by_cases h : x ∈ l
  · constructor
    · intro hy
      simp [sinsert, h] at hy
      exact Or.inr hy
    · intro hy
      rcases hy with hy | hy
      · rw [sinsert, if_pos h, hy]
        exact h
      · simpa [sinsert, h] using hy
  · simp [sinsert, h]

theorem nodup_sinsert (x : Int) {l : List Int} (h : l.Nodup) :
    (sinsert x l).Nodup := by
  by_cases hx : x ∈ l
  · simpa [sinsert, hx] using h
  · rw [sinsert, if_neg hx]
    exact List.nodup_cons.mpr ⟨hx, h⟩

theorem count_sinsert_self (x : Int) {l : List Int} (h : l.Nodup) :
    (sinsert x l).count x = 1 := by
  by_cases hx : x ∈ l
  · simp only [sinsert, hx, if_pos]
    exact List.count_eq_one_of_mem h hx
  · simp [sinsert, hx, List.count_eq_zero_of_not_mem hx]

theorem not_mem_serase_self (x : Int) (l : List Int) : x ∉ serase x l := by
  simp [serase]

theorem mem_serase {x y : Int} (l : List Int) (h : y ≠ x) :
    y ∈ serase x l ↔ y ∈ l := by
  simp [serase, h]

theorem nodup_serase (x : Int) {l : List Int} (h : l.Nodup) :
    (serase x l).Nodup := h.filter _

/-! ### Erasing a member list from the pid map (`deleteGroup`'s loop) -/

theorem nodup_foldl_aerase (ps : List Int) {m : List (Int × Int)}
    (h : (m.map Prod.fst).Nodup) :
    ((ps.foldl (fun m p => aerase p m) m).map Prod.fst).Nodup := by
  induction ps generalizing m with
  | nil => simpa using h
  | cons q rest ih => exact ih (nodup_aerase_keys q h)

theorem alookup_none_foldl_aerase {p : Int} (ps : List Int) {m : List (Int × Int)}
    (h : alookup p m = none) :
    alookup p (ps.foldl (fun m q => aerase q m) m) = none := by
  induction ps generalizing m with
  | nil => simpa using h
  | cons q rest ih => exact ih (alookup_none_aerase q h)

theorem alookup_foldl_aerase_of_mem {p : Int} {ps : List Int} {m : List (Int × Int)}
    (hnd : (m.map Prod.fst).Nodup) (hp : p ∈ ps) :
    alookup p (ps.foldl (fun m q => aerase q m) m) = none := by
  induction ps generalizing m with
  | nil => simp at hp
  | cons q rest ih =>
    by_cases hq : p = q
    · subst hq
      exact alookup_none_foldl_aerase rest (alookup_aerase_self hnd)
    · rcases List.mem_cons.mp hp with h1 | h1
      · exact absurd h1 hq
      · exact ih (nodup_aerase_keys q hnd) h1

theorem alookup_foldl_aerase_of_not_mem {p : Int} {ps : List Int}
    (m : List (Int × Int)) (hp : p ∉ ps) :
    alookup p (ps.foldl (fun m q => aerase q m) m) = alookup p m := by
  induction ps generalizing m with
  | nil => rfl
  | cons q rest ih =>
    simp only [List.mem_cons] at hp
    push_neg at hp
    rw [List.foldl_cons, ih _ hp.2, alookup_aerase_ne _ hp.1]

theorem alookup_some_foldl_aerase {p gid : Int} {ps : List Int} {m : List (Int × Int)}
    (hnd : (m.map Prod.fst).Nodup)
    (h : alookup p (ps.foldl (fun m q => aerase q m) m) = some gid) :
    alookup p m = some gid ∧ p ∉ ps := by
  by_cases hp : p ∈ ps
  · rw [alookup_foldl_aerase_of_mem hnd hp] at h
    exact absurd h (by simp)
  · rw [alookup_foldl_aerase_of_not_mem m hp] at h
    exact ⟨h, hp⟩

/-! ### Well-formedness of a group state -/

/-- Invariant maintained by every `ProcessGroup` operation: unique map keys,
duplicate-free member sets, the member sets and the pid→group map mirror
each other, and `next_group_id_` is above every live group id. -/
structure Wf (s : GroupState) : Prop where
  groupsNodup : (s.groups.map Prod.fst).Nodup
  mapNodup : (s.procMap.map Prod.fst).Nodup
  membersNodup : ∀ gid g, alookup gid s.groups = some g → g.processes.Nodup
  memToMap : ∀ gid g, alookup gid s.groups = some g →
    ∀ p ∈ g.processes, alookup p s.procMap = some gid
  mapToMem : ∀ p gid, alookup p s.procMap = some gid →
    ∃ g, alookup gid s.groups = some g ∧ p ∈ g.processes
  idBound : ∀ gid g, alookup gid s.groups = some g → gid < s.nextId

theorem Wf_initState : Wf initState := by
  refine ⟨by simp [initState], by simp [initState], ?_, ?_, ?_, ?_⟩ <;>
    (intro a b hab; simp [initState, alookup] at hab)

/-! ### Characterizations of the operations -/

/-- The group list after `addProcessToGroup`'s "remove from previous group"
step. -/
def reassignGroups (p gid : Int) (s : GroupState) : List (Int × Group) :=
  match alookup p s.procMap with
  | none => s.groups
  | some prev =>
    if prev ≠ gid ∧ (alookup prev s.groups).isSome then
      amodify prev (fun g => { g with processes := serase p g.processes }) s.groups
    else s.groups

theorem addProcessToGroup_eq_of_found {exists_ : Int → Bool} {p gid : Int}
    {s : GroupState} {g0 : Group}
    (hg : alookup gid s.groups = some g0) (hex : exists_ p = true) :
    addProcessToGroup exists_ p gid s =
      (true,
       { groups := amodify gid (fun g => { g with processes := sinsert p g.processes })
           (reassignGroups p gid s)
         procMap := ainsert p gid s.procMap
         nextId := s.nextId }) := by
  unfold addProcessToGroup reassignGroups
  rw [hg, hex]
  simp

theorem addProcessToGroup_state_of_false (exists_ : Int → Bool) (p gid : Int)
    (s : GroupState) (h : (addProcessToGroup exists_ p gid s).1 = false) :
    (addProcessToGroup exists_ p gid s).2 = s := by
  unfold addProcessToGroup at h ⊢
  cases hg : alookup gid s.groups with
  | none => rfl
  | some g0 =>
    cases hex : exists_ p with
    | false => simp [hex]
    | true =>
      rw [hg] at h
      simp [hex] at h

theorem addProcessToGroup_found_of_true {exists_ : Int → Bool} {p gid : Int}
    {s : GroupState} (h : (addProcessToGroup exists_ p gid s).1 = true) :
    (∃ g0, alookup gid s.groups = some g0) ∧ exists_ p = true := by
  unfold addProcessToGroup at h
  cases hg : alookup gid s.groups with
  | none => rw [hg] at h; simp at h
  | some g0 =>
    rw [hg] at h
    cases hex : exists_ p with
    | false => rw [hex] at h; simp at h
    | true => exact ⟨⟨g0, rfl⟩, rfl⟩

theorem deleteGroup_eq_of_found {gid : Int} {s : GroupState} {g : Group}
    (hg : alookup gid s.groups = some g) :
    deleteGroup gid s =
      (true,
       { groups := aerase gid s.groups
         procMap := g.processes.foldl (fun m p => aerase p m) s.procMap
         nextId := s.nextId }) := by
  unfold deleteGroup
  rw [hg]

theorem deleteGroup_found_of_true {gid : Int} {s : GroupState}
    (h : (deleteGroup gid s).1 = true) : ∃ g, alookup gid s.groups = some g := by
  unfold deleteGroup at h
  cases hg : alookup gid s.groups with
  | none => rw [hg] at h; simp at h
  | some g => exact ⟨g, rfl⟩

theorem reassignGroups_of_unmapped {p gid : Int} {s : GroupState}
    (hm : alookup p s.procMap = none) : reassignGroups p gid s = s.groups := by
  unfold reassignGroups
  rw [hm]

theorem reassignGroups_of_same {p gid : Int} {s : GroupState}
    (hm : alookup p s.procMap = some gid) : reassignGroups p gid s = s.groups := by
  unfold reassignGroups
  rw [hm]
  simp

theorem reassignGroups_of_other {p gid prev : Int} {s : GroupState} {gprev : Group}
    (hm : alookup p s.procMap = some prev) (hne : prev ≠ gid)
    (hprev : alookup prev s.groups = some gprev) :
    reassignGroups p gid s =
      amodify prev (fun g => { g with processes := serase p g.processes }) s.groups := by
  unfold reassignGroups
  rw [hm]
  simp [hne, hprev]

/-! ### Preservation of well-formedness -/

theorem Wf_createGroup (name : String) (priority : Int) (description : String)
    {s : GroupState} (hwf : Wf s) : Wf (createGroup name priority description s).2 := by
  have hfresh : alookup s.nextId s.groups = none := by
    cases hn : alookup s.nextId s.groups with
    | none => rfl
    | some g => exact absurd (hwf.idBound _ _ hn) (lt_irrefl _)
  constructor
  · exact nodup_ainsert_keys _ _ hwf.groupsNodup
  · exact hwf.mapNodup
  · intro gid g hgg
    by_cases h1 : gid = s.nextId
    · subst h1
      rw [createGroup] at hgg
      simp only at hgg
      rw [alookup_ainsert_self] at hgg
      cases hgg
      simp
    · rw [createGroup] at hgg
      simp only at hgg
      rw [alookup_ainsert_ne _ _ h1] at hgg
      exact hwf.membersNodup _ _ hgg
  · intro gid g hgg q hq
    by_cases h1 : gid = s.nextId
    · subst h1
      rw [createGroup] at hgg
      simp only at hgg
      rw [alookup_ainsert_self] at hgg
      cases hgg
      simp at hq
    · rw [createGroup] at hgg ⊢
      simp only at hgg ⊢
      rw [alookup_ainsert_ne _ _ h1] at hgg
      exact hwf.memToMap _ _ hgg _ hq
  · intro q gid hq
    rw [createGroup] at hq ⊢
    simp only at hq ⊢
    obtain ⟨g, hgg, hmem⟩ := hwf.mapToMem _ _ hq
    have h1 : gid ≠ s.nextId := by
      intro h2
      rw [h2, hfresh] at hgg
      cases hgg
    exact ⟨g, by rw [alookup_ainsert_ne _ _ h1]; exact hgg, hmem⟩
  · intro gid g hgg
    rw [createGroup] at hgg ⊢
    simp only at hgg ⊢
    by_cases h1 : gid = s.nextId
    · subst h1
      omega
    · rw [alookup_ainsert_ne _ _ h1] at hgg
      have := hwf.idBound _ _ hgg
      omega

/-- Wf survives `addProcessToGroup` when the pid had no previous group or
was already in the target group (no cleanup step). -/
theorem Wf_add_noclean {p gid : Int} {s : GroupState} (hwf : Wf s) {g0 : Group}
    (hg : alookup gid s.groups = some g0)
    (hm : alookup p s.procMap = none ∨ alookup p s.procMap = some gid) :
    Wf { groups := amodify gid (fun g => { g with processes := sinsert p g.processes }) s.groups
         procMap := ainsert p gid s.procMap
         nextId := s.nextId } := by
  have hq_ne_p : ∀ {gid' : Int} {g' : Group}, gid' ≠ gid →
      alookup gid' s.groups = some g' → ∀ q ∈ g'.processes, q ≠ p := by
    intro gid' g' hne hgg' q hq hqp
    subst hqp
    have hmap := hwf.memToMap _ _ hgg' _ hq
    rcases hm with hm | hm
    · rw [hm] at hmap
      cases hmap
    · rw [hm] at hmap
      injection hmap with h2
      exact hne h2.symm
  constructor
  · dsimp only
    rw [amodify_keys]
    exact hwf.groupsNodup
  · exact nodup_ainsert_keys _ _ hwf.mapNodup
  · intro gid' g' hgg'
    dsimp only at hgg'
    by_cases h1 : gid' = gid
    · subst h1
      rw [alookup_amodify_self, hg] at hgg'
      simp only [Option.map_some'] at hgg'
      injection hgg' with h2
      rw [← h2]
      exact nodup_sinsert _ (hwf.membersNodup _ _ hg)
    · rw [alookup_amodify_ne _ _ h1] at hgg'
      exact hwf.membersNodup _ _ hgg'
  · intro gid' g' hgg' q hq
    dsimp only at hgg' ⊢
    by_cases h1 : gid' = gid
    · subst h1
      rw [alookup_amodify_self, hg] at hgg'
      simp only [Option.map_some'] at hgg'
      injection hgg' with h2
      rw [← h2] at hq
      rcases (mem_sinsert _).mp hq with hqp | hq2
      · subst hqp
        exact alookup_ainsert_self _ _ _
      · by_cases hqp : q = p
        · subst hqp
          exact alookup_ainsert_self _ _ _
        · rw [alookup_ainsert_ne _ _ hqp]
          exact hwf.memToMap _ _ hg _ hq2
    · rw [alookup_amodify_ne _ _ h1] at hgg'
      have hqp := hq_ne_p h1 hgg' q hq
      rw [alookup_ainsert_ne _ _ hqp]
      exact hwf.memToMap _ _ hgg' _ hq
  · intro q gid' hq
    dsimp only at hq ⊢
    by_cases hqp : q = p
    · subst hqp
      rw [alookup_ainsert_self] at hq
      injection hq with h2
      subst h2
      refine ⟨{ g0 with processes := sinsert q g0.processes }, ?_, ?_⟩
      · rw [alookup_amodify_self, hg]
        rfl
      · exact (mem_sinsert _).mpr (Or.inl rfl)
    · rw [alookup_ainsert_ne _ _ hqp] at hq
      obtain ⟨g'', hg'', hmem⟩ := hwf.mapToMem _ _ hq
      by_cases h1 : gid' = gid
      · subst h1
        rw [hg] at hg''
        injection hg'' with h2
        subst h2
        refine ⟨{ g0 with processes := sinsert p g0.processes }, ?_, ?_⟩
        · rw [alookup_amodify_self, hg]
          rfl
        · exact (mem_sinsert _).mpr (Or.inr hmem)
      · refine ⟨g'', ?_, hmem⟩
        rw [alookup_amodify_ne _ _ h1]
        exact hg''
  · intro gid' g' hgg'
    dsimp only at hgg' ⊢
    by_cases h1 : gid' = gid
    · subst h1
      exact hwf.idBound _ _ hg
    · rw [alookup_amodify_ne _ _ h1] at hgg'
      exact hwf.idBound _ _ hgg'

/-- Wf survives `addProcessToGroup` when the pid is moved out of a distinct
previous group. -/
theorem Wf_add_clean {p gid prev : Int} {s : GroupState} (hwf : Wf s)
    {g0 gprev : Group} (hg : alookup gid s.groups = some g0)
    (hm : alookup p s.procMap = some prev) (hne : prev ≠ gid)
    (hprev : alookup prev s.groups = some gprev) :
    Wf { groups := amodify gid (fun g => { g with processes := sinsert p g.processes })
           (amodify prev (fun g => { g with processes := serase p g.processes }) s.groups)
         procMap := ainsert p gid s.procMap
         nextId := s.nextId } := by
  have hgid_prev : gid ≠ prev := Ne.symm hne
  have hmid_gid : alookup gid
      (amodify prev (fun g => { g with processes := serase p g.processes }) s.groups) = some g0 := by
    rw [alookup_amodify_ne _ _ hgid_prev]
    exact hg
  constructor
  · dsimp only
    rw [amodify_keys, amodify_keys]
    exact hwf.groupsNodup
  · exact nodup_ainsert_keys _ _ hwf.mapNodup
  · intro gid' g' hgg'
    dsimp only at hgg'
    by_cases h1 : gid' = gid
    · subst h1
      rw [alookup_amodify_self, hmid_gid] at hgg'
      simp only [Option.map_some'] at hgg'
      injection hgg' with h2
      rw [← h2]
      exact nodup_sinsert _ (hwf.membersNodup _ _ hg)
    · rw [alookup_amodify_ne _ _ h1] at hgg'
      by_cases h2 : gid' = prev
      · subst h2
        rw [alookup_amodify_self, hprev] at hgg'
        simp only [Option.map_some'] at hgg'
        injection hgg' with h3
        rw [← h3]
        exact nodup_serase _ (hwf.membersNodup _ _ hprev)
      · rw [alookup_amodify_ne _ _ h2] at hgg'
        exact hwf.membersNodup _ _ hgg'
  · intro gid' g' hgg' q hq
    dsimp only at hgg' ⊢
    by_cases h1 : gid' = gid
    · subst h1
      rw [alookup_amodify_self, hmid_gid] at hgg'
      simp only [Option.map_some'] at hgg'
      injection hgg' with h2
      rw [← h2] at hq
      rcases (mem_sinsert _).mp hq with hqp | hq2
      · subst hqp
        exact alookup_ainsert_self _ _ _
      · by_cases hqp : q = p
        · subst hqp
          exact alookup_ainsert_self _ _ _
        · rw [alookup_ainsert_ne _ _ hqp]
          exact hwf.memToMap _ _ hg _ hq2
    · rw [alookup_amodify_ne _ _ h1] at hgg'
      by_cases h2 : gid' = prev
      · subst h2
        rw [alookup_amodify_self, hprev] at hgg'
        simp only [Option.map_some'] at hgg'
        injection hgg' with h3
        rw [← h3] at hq
        have hqp : q ≠ p := by
          intro hqp
          subst hqp
          exact not_mem_serase_self q _ hq
        have hq2 : q ∈ gprev.processes := ((mem_serase _ hqp).mp hq)
        rw [alookup_ainsert_ne _ _ hqp]
        exact hwf.memToMap _ _ hprev _ hq2
      · rw [alookup_amodify_ne _ _ h2] at hgg'
        have hqp : q ≠ p := by
          intro hqp
          subst hqp
          have hmap := hwf.memToMap _ _ hgg' _ hq
          rw [hm] at hmap
          injection hmap with h3
          exact h2 h3.symm
        rw [alookup_ainsert_ne _ _ hqp]
        exact hwf.memToMap _ _ hgg' _ hq
  · intro q gid' hq
    dsimp only at hq ⊢
    by_cases hqp : q = p
    · subst hqp
      rw [alookup_ainsert_self] at hq
      injection hq with h2
      subst h2
      refine ⟨{ g0 with processes := sinsert q g0.processes }, ?_, ?_⟩
      · rw [alookup_amodify_self, hmid_gid]
        rfl
      · exact (mem_sinsert _).mpr (Or.inl rfl)
    · rw [alookup_ainsert_ne _ _ hqp] at hq
      obtain ⟨g'', hg'', hmem⟩ := hwf.mapToMem _ _ hq
      by_cases h1 : gid' = gid
      · subst h1
        rw [hg] at hg''
        injection hg'' with h2
        subst h2
        refine ⟨{ g0 with processes := sinsert p g0.processes }, ?_, ?_⟩
        · rw [alookup_amodify_self, hmid_gid]
          rfl
        · exact (mem_sinsert _).mpr (Or.inr hmem)
      · by_cases h2 : gid' = prev
        · subst h2
          rw [hprev] at hg''
          injection hg'' with h3
          subst h3
          refine ⟨{ gprev with processes := serase p gprev.processes }, ?_, ?_⟩
          · rw [alookup_amodify_ne _ _ h1, alookup_amodify_self, hprev]
            rfl
          · exact (mem_serase _ hqp).mpr hmem
        · refine ⟨g'', ?_, hmem⟩
          rw [alookup_amodify_ne _ _ h1, alookup_amodify_ne _ _ h2]
          exact hg''
  · intro gid' g' hgg'
    dsimp only at hgg' ⊢
    by_cases h1 : gid' = gid
    · subst h1
      exact hwf.idBound _ _ hg
    · rw [alookup_amodify_ne _ _ h1] at hgg'
      by_cases h2 : gid' = prev
      · subst h2
        exact hwf.idBound _ _ hprev
      · rw [alookup_amodify_ne _ _ h2] at hgg'
        exact hwf.idBound _ _ hgg'

theorem Wf_addProcessToGroup (exists_ : Int → Bool) (p gid : Int) {s : GroupState}
    (hwf : Wf s) : Wf (addProcessToGroup exists_ p gid s).2 := by
  cases hb : (addProcessToGroup exists_ p gid s).1 with
  | false =>
    rw [addProcessToGroup_state_of_false _ _ _ _ hb]
    exact hwf
  | true =>
    obtain ⟨⟨g0, hg⟩, hex⟩ := addProcessToGroup_found_of_true hb
    rw [addProcessToGroup_eq_of_found hg hex]
    cases hm : alookup p s.procMap with
    | none =>
      show Wf _
      rw [show reassignGroups p gid s = s.groups from reassignGroups_of_unmapped hm]
      exact Wf_add_noclean hwf hg (Or.inl hm)
    | some prev =>
      by_cases hne : prev = gid
      · subst hne
        show Wf _
        rw [show reassignGroups p prev s = s.groups from reassignGroups_of_same hm]
        exact Wf_add_noclean hwf hg (Or.inr hm)
      · obtain ⟨gprev, hprev, _⟩ := hwf.mapToMem _ _ hm
        show Wf _
        rw [show reassignGroups p gid s = _ from reassignGroups_of_other hm hne hprev]
        exact Wf_add_clean hwf hg hm hne hprev

theorem alookup_reassignGroups_self (p gid : Int) (s : GroupState) :
    alookup gid (reassignGroups p gid s) = alookup gid s.groups := by
  unfold reassignGroups
  cases hm : alookup p s.procMap with
  | none => rfl
  | some prev =>
    dsimp only
    by_cases hcond : prev ≠ gid ∧ (alookup prev s.groups).isSome = true
    · rw [if_pos hcond, alookup_amodify_ne _ _ (Ne.symm hcond.1)]
    · rw [if_neg hcond]

theorem mem_getProcessesInGroup {gid q : Int} {s : GroupState} :
    q ∈ getProcessesInGroup gid s ↔
      ∃ g, alookup gid s.groups = some g ∧ q ∈ g.processes := by
  unfold getProcessesInGroup
  cases hg : alookup gid s.groups with
  | none => simp
  | some g => simp

theorem Wf_deleteGroup (gid : Int) {s : GroupState} (hwf : Wf s) :
    Wf (deleteGroup gid s).2 := by
  cases hg : alookup gid s.groups with
  | none =>
    unfold deleteGroup
    rw [hg]
    exact hwf
  | some g =>
    rw [deleteGroup_eq_of_found hg]
    constructor
    · exact nodup_aerase_keys _ hwf.groupsNodup
    · exact nodup_foldl_aerase _ hwf.mapNodup
    · intro gid' g' hgg'
      dsimp only at hgg'
      by_cases h1 : gid' = gid
      · subst h1
        rw [alookup_aerase_self hwf.groupsNodup] at hgg'
        cases hgg'
      · rw [alookup_aerase_ne _ h1] at hgg'
        exact hwf.membersNodup _ _ hgg'
    · intro gid' g' hgg' q hq
      dsimp only at hgg' ⊢
      by_cases h1 : gid' = gid
      · subst h1
        rw [alookup_aerase_self hwf.groupsNodup] at hgg'
        cases hgg'
      · rw [alookup_aerase_ne _ h1] at hgg'
        have hmap := hwf.memToMap _ _ hgg' _ hq
        have hqg : q ∉ g.processes := by
          intro hqg
          have hmap2 := hwf.memToMap _ _ hg _ hqg
          rw [hmap] at hmap2
          injection hmap2 with h2
          exact h1 h2
        rw [alookup_foldl_aerase_of_not_mem _ hqg]
        exact hmap
    · intro q gid' hq
      dsimp only at hq ⊢
      obtain ⟨hq0, hqg⟩ := alookup_some_foldl_aerase hwf.mapNodup hq
      obtain ⟨g'', hg'', hmem⟩ := hwf.mapToMem _ _ hq0
      have h1 : gid' ≠ gid := by
        intro h2
        subst h2
        rw [hg] at hg''
        injection hg'' with h3
        subst h3
        exact hqg hmem
      refine ⟨g'', ?_, hmem⟩
      rw [alookup_aerase_ne _ h1]
      exact hg''
    · intro gid' g' hgg'
      dsimp only at hgg' ⊢
      by_cases h1 : gid' = gid
      · subst h1
        rw [alookup_aerase_self hwf.groupsNodup] at hgg'
        cases hgg'
      · rw [alookup_aerase_ne _ h1] at hgg'
        exact hwf.idBound _ _ hgg'

theorem removeProcessFromGroup_eq_of_found {p gid : Int} {s : GroupState} {g : Group}
    (hg : alookup gid s.groups = some g) (hp : p ∈ g.processes) :
    removeProcessFromGroup p gid s =
      (true,
       { groups := amodify gid (fun g' => { g' with processes := serase p g'.processes }) s.groups
         procMap := aerase p s.procMap
         nextId := s.nextId }) := by
  unfold removeProcessFromGroup
  rw [hg]
  simp [hp]

theorem removeProcessFromGroup_state_of_false (p gid : Int) (s : GroupState)
    (h : (removeProcessFromGroup p gid s).1 = false) :
    (removeProcessFromGroup p gid s).2 = s := by
  unfold removeProcessFromGroup at h ⊢
  cases hg : alookup gid s.groups with
  | none => rfl
  | some g =>
    by_cases hp : p ∈ g.processes
    · rw [hg] at h
      simp [hp] at h
    · simp [hp]

theorem Wf_removeProcessFromGroup (p gid : Int) {s : GroupState} (hwf : Wf s) :
    Wf (removeProcessFromGroup p gid s).2 := by
  cases hb : (removeProcessFromGroup p gid s).1 with
  | false =>
    rw [removeProcessFromGroup_state_of_false _ _ _ hb]
    exact hwf
  | true =>
    have hfound : ∃ g, alookup gid s.groups = some g ∧ p ∈ g.processes := by
      unfold removeProcessFromGroup at hb
      cases hg : alookup gid s.groups with
      | none => rw [hg] at hb; simp at hb
      | some g =>
        rw [hg] at hb
        by_cases hp : p ∈ g.processes
        · exact ⟨g, rfl, hp⟩
        · simp [hp] at hb
    obtain ⟨g, hg, hp⟩ := hfound
    rw [removeProcessFromGroup_eq_of_found hg hp]
    constructor
    · dsimp only
      rw [amodify_keys]
      exact hwf.groupsNodup
    · exact nodup_aerase_keys _ hwf.mapNodup
    · intro gid' g' hgg'
      dsimp only at hgg'
      by_cases h1 : gid' = gid
      · subst h1
        rw [alookup_amodify_self, hg] at hgg'
        simp only [Option.map_some'] at hgg'
        injection hgg' with h2
        rw [← h2]
        exact nodup_serase _ (hwf.membersNodup _ _ hg)
      · rw [alookup_amodify_ne _ _ h1] at hgg'
        exact hwf.membersNodup _ _ hgg'
    · intro gid' g' hgg' q hq
      dsimp only at hgg' ⊢
      by_cases h1 : gid' = gid
      · subst h1
        rw [alookup_amodify_self, hg] at hgg'
        simp only [Option.map_some'] at hgg'
        injection hgg' with h2
        rw [← h2] at hq
        have hqp : q ≠ p := by
          intro hqp
          subst hqp
          exact not_mem_serase_self q _ hq
        rw [alookup_aerase_ne _ hqp]
        exact hwf.memToMap _ _ hg _ ((mem_serase _ hqp).mp hq)
      · rw [alookup_amodify_ne _ _ h1] at hgg'
        have hqp : q ≠ p := by
          intro hqp
          subst hqp
          have hm1 := hwf.memToMap _ _ hgg' _ hq
          have hm2 := hwf.memToMap _ _ hg _ hp
          rw [hm1] at hm2
          injection hm2 with h2
          exact h1 h2
        rw [alookup_aerase_ne _ hqp]
        exact hwf.memToMap _ _ hgg' _ hq
    · intro q gid' hq
      dsimp only at hq ⊢
      have hqp : q ≠ p := by
        intro hqp
        subst hqp
        rw [alookup_aerase_self hwf.mapNodup] at hq
        cases hq
      rw [alookup_aerase_ne _ hqp] at hq
      obtain ⟨g'', hg'', hmem⟩ := hwf.mapToMem _ _ hq
      by_cases h1 : gid' = gid
      · subst h1
        rw [hg] at hg''
        injection hg'' with h2
        subst h2
        refine ⟨{ g with processes := serase p g.processes }, ?_, ?_⟩
        · rw [alookup_amodify_self, hg]
          rfl
        · exact (mem_serase _ hqp).mpr hmem
      · refine ⟨g'', ?_, hmem⟩
        rw [alookup_amodify_ne _ _ h1]
        exact hg''
    · intro gid' g' hgg'
      dsimp only at hgg' ⊢
      by_cases h1 : gid' = gid
      · subst h1
        exact hwf.idBound _ _ hg
      · rw [alookup_amodify_ne _ _ h1] at hgg'
        exact hwf.idBound _ _ hgg'

theorem Wf_renameGroup (gid : Int) (new_name : String) {s : GroupState}
    (hwf : Wf s) : Wf (renameGroup gid new_name s).2 := by
  cases hg : alookup gid s.groups with
  | none =>
    unfold renameGroup
    rw [hg]
    exact hwf
  | some g =>
    unfold renameGroup
    rw [hg]
    constructor
    · dsimp only
      rw [amodify_keys]
      exact hwf.groupsNodup
    · exact hwf.mapNodup
    · intro gid' g' hgg'
      dsimp only at hgg'
      by_cases h1 : gid' = gid
      · subst h1
        rw [alookup_amodify_self, hg] at hgg'
        simp only [Option.map_some'] at hgg'
        injection hgg' with h2
        rw [← h2]
        show g.processes.Nodup
        exact hwf.membersNodup _ _ hg
      · rw [alookup_amodify_ne _ _ h1] at hgg'
        exact hwf.membersNodup _ _ hgg'
    · intro gid' g' hgg' q hq
      dsimp only at hgg' ⊢
      by_cases h1 : gid' = gid
      · subst h1
        rw [alookup_amodify_self, hg] at hgg'
        simp only [Option.map_some'] at hgg'
        injection hgg' with h2
        rw [← h2] at hq
        exact hwf.memToMap _ _ hg _ hq
      · rw [alookup_amodify_ne _ _ h1] at hgg'
        exact hwf.memToMap _ _ hgg' _ hq
    · intro q gid' hq
      dsimp only at hq ⊢
      obtain ⟨g'', hg'', hmem⟩ := hwf.mapToMem _ _ hq
      by_cases h1 : gid' = gid
      · subst h1
        rw [hg] at hg''
        injection hg'' with h2
        subst h2
        refine ⟨{ g with name := new_name }, ?_, ?_⟩
        · rw [alookup_amodify_self, hg]
          rfl
        · exact hmem
      · refine ⟨g'', ?_, hmem⟩
        rw [alookup_amodify_ne _ _ h1]
        exact hg''
    · intro gid' g' hgg'
      dsimp only at hgg' ⊢
      by_cases h1 : gid' = gid
      · subst h1
        exact hwf.idBound _ _ hg
      · rw [alookup_amodify_ne _ _ h1] at hgg'
        exact hwf.idBound _ _ hgg'

/-- In a well-formed state every pid belongs to at most one group's member
set. -/
theorem Wf_atMostOne {s : GroupState} (hwf : Wf s) {q gid1 gid2 : Int}
    (h1 : q ∈ getProcessesInGroup gid1 s) (h2 : q ∈ getProcessesInGroup gid2 s) :
    gid1 = gid2 := by
  obtain ⟨g1, hg1, hm1⟩ := mem_getProcessesInGroup.mp h1
  obtain ⟨g2, hg2, hm2⟩ := mem_getProcessesInGroup.mp h2
  have e1 := hwf.memToMap _ _ hg1 _ hm1
  have e2 := hwf.memToMap _ _ hg2 _ hm2
  rw [e1] at e2
  injection e2

/-- C6: after `addProcessToGroup(p, g)` returns true, `members(g)` contains
`p` exactly once and `group_of(p) = g`; `p` is in no other group's member
set (in particular any previous group lost it), and every pid belongs to at
most one group. -/
theorem C6_add_establishes_unique_membership (exists_ : Int → Bool) (p gid : Int)
    (s : GroupState) (hwf : Wf s)
    (h : (addProcessToGroup exists_ p gid s).1 = true) :
    (getProcessesInGroup gid (addProcessToGroup exists_ p gid s).2).count p = 1
    ∧ getProcessGroup p (addProcessToGroup exists_ p gid s).2 = gid
    ∧ (∀ gid', gid' ≠ gid → p ∉ getProcessesInGroup gid' (addProcessToGroup exists_ p gid s).2)
    ∧ (∀ q gid1 gid2, q ∈ getProcessesInGroup gid1 (addProcessToGroup exists_ p gid s).2 →
        q ∈ getProcessesInGroup gid2 (addProcessToGroup exists_ p gid s).2 → gid1 = gid2) := by
  obtain ⟨⟨g0, hg⟩, hex⟩ := addProcessToGroup_found_of_true h
  have hwf' := Wf_addProcessToGroup exists_ p gid hwf
  refine ⟨?_, ?_, ?_, fun q gid1 gid2 h1 h2 => Wf_atMostOne hwf' h1 h2⟩
  · rw [addProcessToGroup_eq_of_found hg hex]
    unfold getProcessesInGroup
    dsimp only
    rw [alookup_amodify_self, alookup_reassignGroups_self, hg]
    simp only [Option.map_some']
    exact count_sinsert_self _ (hwf.membersNodup _ _ hg)
  · rw [addProcessToGroup_eq_of_found hg hex]
    unfold getProcessGroup
    dsimp only
    rw [alookup_ainsert_self]
  · intro gid' hne hp
    obtain ⟨g', hgg', hpg⟩ := mem_getProcessesInGroup.mp hp
    have hmap := hwf'.memToMap _ _ hgg' _ hpg
    rw [addProcessToGroup_eq_of_found hg hex] at hmap
    dsimp only at hmap
    rw [alookup_ainsert_self] at hmap
    injection hmap with h2
    exact hne h2.symm

/-- Witness for C6 at a concrete run: create a group, add pid 5 to it. -/
theorem C6_witness :
    (getProcessesInGroup 1 (addProcessToGroup (fun _ => true) 5 1
        (createGroup "x" 0 "" initState).2).2).count 5 = 1
    ∧ getProcessGroup 5 (addProcessToGroup (fun _ => true) 5 1
        (createGroup "x" 0 "" initState).2).2 = 1 := by
  have hc := C6_add_establishes_unique_membership (fun _ => true) 5 1
      (createGroup "x" 0 "" initState).2
      (Wf_createGroup "x" 0 "" Wf_initState) (by decide)
  exact ⟨hc.1, hc.2.1⟩

/-- C7 (amended): `getProcessGroup` returns -1 (not 0) for a pid with no
mapping, and after a successful `deleteGroup` every former member maps
to -1. -/
theorem C7_group_of_unassigned_is_neg_one (s : GroupState) (hwf : Wf s) (gid : Int)
    (h : (deleteGroup gid s).1 = true) :
    (∀ q, alookup q s.procMap = none → getProcessGroup q s = -1)
    ∧ (∀ q, q ∈ getProcessesInGroup gid s →
        getProcessGroup q (deleteGroup gid s).2 = -1) := by
  constructor
  · intro q hq
    unfold getProcessGroup
    rw [hq]
  · intro q hq
    obtain ⟨g, hg⟩ := deleteGroup_found_of_true h
    obtain ⟨g', hg', hmem⟩ := mem_getProcessesInGroup.mp hq
    rw [hg] at hg'
    injection hg' with h2
    subst h2
    rw [deleteGroup_eq_of_found hg]
    unfold getProcessGroup
    dsimp only
    rw [alookup_foldl_aerase_of_mem hwf.mapNodup hmem]

/-- Counterexample to C7 as stated: the spec's own scenario
`g = create_group("x", 0); add(p, g); delete_group(g)` yields
`group_of(p) = -1`, not the claimed reserved value `0`. -/
theorem C7_counterexample :
    getProcessGroup 5 (deleteGroup 1 (addProcessToGroup (fun _ => true) 5 1
        (createGroup "x" 0 "" initState).2).2).2 = -1
    ∧ decide ((-1 : Int) = 0) = false := by decide

/-- Witness for C7 (amended) at the same concrete run. -/
theorem C7_witness :
    getProcessGroup 5 (deleteGroup 1 (addProcessToGroup (fun _ => true) 5 1
        (createGroup "x" 0 "" initState).2).2).2 = -1 := by
  have hc := C7_group_of_unassigned_is_neg_one
      (addProcessToGroup (fun _ => true) 5 1 (createGroup "x" 0 "" initState).2).2
      (Wf_addProcessToGroup _ _ _ (Wf_createGroup "x" 0 "" Wf_initState)) 1 (by decide)
  exact hc.2 5 (by decide)

/-- C10: a failed `addProcessToGroup` (unknown group or dead process)
leaves the group index completely unchanged. -/
theorem C10_failed_add_leaves_state_unchanged (exists_ : Int → Bool) (p gid : Int)
    (s : GroupState) (h : (addProcessToGroup exists_ p gid s).1 = false) :
    (addProcessToGroup exists_ p gid s).2 = s
    ∧ (∀ g', getProcessesInGroup g' (addProcessToGroup exists_ p gid s).2 =
        getProcessesInGroup g' s)
    ∧ (∀ q, getProcessGroup q (addProcessToGroup exists_ p gid s).2 =
        getProcessGroup q s) := by
  have he := addProcessToGroup_state_of_false exists_ p gid s h
  exact ⟨he, fun g' => by rw [he], fun q => by rw [he]⟩

/-- Witness for C10: adding a pid the liveness oracle rejects fails and
changes nothing. -/
theorem C10_witness :
    (addProcessToGroup (fun _ => false) 5 1 (createGroup "x" 0 "" initState).2).2 =
      (createGroup "x" 0 "" initState).2 := by
  exact (C10_failed_add_leaves_state_unchanged (fun _ => false) 5 1 _ (by decide)).1

end Grp

/-! ## History ring (`src/src/ProcessHistory.cpp`)

`history_data_` is an `unordered_map<pid_t, list<HistoryEntry>>` whose lists
keep the **most recent entry at the front** (`emplace_front` to add,
`pop_back` to trim).  The entry's timestamp is the wall-clock time at the
moment of the push; the model takes it as an explicit argument. -/

namespace Hist

/-- `qnx::history::HistoryEntry`. -/
structure HistoryEntry where
  cpu_usage : ℚ
  memory_usage : Nat
  timestamp : Nat
  deriving DecidableEq, Repr

/-- The `ProcessHistory` singleton's state. -/
structure HistState where
  data : List (Int × List HistoryEntry)
  maxEntries : Nat
  maxTracked : Nat
  deriving DecidableEq, Repr

/-- `ProcessHistory::init` (defaults 60 entries per process, 100 tracked
processes). -/
def histInit (max_entries_per_process max_tracked_processes : Nat) : HistState :=
  ⟨[], max_entries_per_process, max_tracked_processes⟩

/-- The trim step of `addEntry`: drop the oldest (back) element when the
list has grown beyond `max_entries_per_process_`. -/
def trimHist (maxE : Nat) (l : List HistoryEntry) : List HistoryEntry :=
  if l.length > maxE then l.dropLast else l

/-- `ProcessHistory::addEntry`: ignored when the pid is untracked and the
tracked-process cap is reached; otherwise the entry is pushed at the front
and the list trimmed to the cap. -/
def addEntry (pid : Int) (cpu_usage : ℚ) (memory_usage : Nat) (now : Nat)
    (s : HistState) : HistState :=
  match Grp.alookup pid s.data with
  | none =>
    if s.data.length ≥ s.maxTracked then s
    else
      let e : HistoryEntry := ⟨cpu_usage, memory_usage, now⟩
      { s with data := Grp.ainsert pid (trimHist s.maxEntries [e]) s.data }
  | some l =>
    let e : HistoryEntry := ⟨cpu_usage, memory_usage, now⟩
    { s with data := Grp.amodify pid (fun _ => trimHist s.maxEntries (e :: l)) s.data }

/-- `ProcessHistory::getEntries`: up to `count` entries, taken from the
front of the stored list (most recent first). -/
def getEntries (pid : Int) (count : Nat) (s : HistState) : List HistoryEntry :=
  match Grp.alookup pid s.data with
  | none => []
  | some l => l.take count

/-- `ProcessHistory::clearProcessHistory`. -/
def clearProcessHistory (pid : Int) (s : HistState) : HistState :=
  { s with data := Grp.aerase pid s.data }

/-- `ProcessHistory::clearAllHistory`. -/
def clearAllHistory (s : HistState) : HistState :=
  { s with data := [] }

/-- A sequence of pushes `(pid, cpu, memory, timestamp)` applied in order. -/
def applyPushes (ps : List (Int × ℚ × Nat × Nat)) (s : HistState) : HistState :=
  ps.foldl (fun s q => addEntry q.1 q.2.1 q.2.2.1 q.2.2.2 s) s

end Hist

namespace Grp

theorem amodify_length {α : Type} (k : Int) (f : α → α) (l : List (Int × α)) :
    (amodify k f l).length = l.length := by
  have h := congrArg List.length (amodify_keys k f l)
  simpa using h

theorem alookup_mem_keys_some {α : Type} {k : Int} {l : List (Int × α)}
    (h : k ∈ l.map Prod.fst) : ∃ v, alookup k l = some v := by
  induction l with
  | nil => simp at h
  | cons hd t ih =>
    obtain ⟨k', v'⟩ := hd
    by_cases h1 : k' = k
    · exact ⟨v', by simp [alookup, h1]⟩
    · have h2 : k ∈ t.map Prod.fst := by
        simp only [List.map_cons, List.mem_cons] at h
        rcases h with h3 | h3
        · exact absurd h3 (fun he => h1 he.symm)
        · exact h3
      obtain ⟨v, hv⟩ := ih h2
      exact ⟨v, by simp [alookup, h1, hv]⟩

theorem ainsert_length_of_not_mem {α : Type} (k : Int) (v : α) {l : List (Int × α)}
    (h : k ∉ l.map Prod.fst) : (ainsert k v l).length = l.length + 1 := by
  have hk := ainsert_keys k v l
  rw [if_neg h] at hk
  have h2 := congrArg List.length hk
  simpa using h2

end Grp

/-! ### History invariants and claim theorems -/

namespace Hist

/-- Invariant of the history store: unique pids, per-pid lists within the
entry cap, tracked-pid count within the process cap. -/
def HistInv (s : HistState) : Prop :=
  (s.data.map Prod.fst).Nodup
  ∧ (∀ pid l, Grp.alookup pid s.data = some l → l.length ≤ s.maxEntries)
  ∧ s.data.length ≤ s.maxTracked

theorem trimHist_length_le {maxE : Nat} {l : List HistoryEntry}
    (h : l.length ≤ maxE + 1) : (trimHist maxE l).length ≤ maxE := by
  unfold trimHist
  split
  · rw [List.length_dropLast]
    omega
  · omega

theorem addEntry_maxEntries (pid : Int) (cpu : ℚ) (mem now : Nat) (s : HistState) :
    (addEntry pid cpu mem now s).maxEntries = s.maxEntries := by
  unfold addEntry
  cases Grp.alookup pid s.data with
  | none =>
    dsimp only
    split <;> rfl
  | some l => rfl

theorem addEntry_maxTracked (pid : Int) (cpu : ℚ) (mem now : Nat) (s : HistState) :
    (addEntry pid cpu mem now s).maxTracked = s.maxTracked := by
  unfold addEntry
  cases Grp.alookup pid s.data with
  | none =>
    dsimp only
    split <;> rfl
  | some l => rfl

theorem HistInv_addEntry (pid : Int) (cpu : ℚ) (mem now : Nat) {s : HistState}
    (hinv : HistInv s) : HistInv (addEntry pid cpu mem now s) := by
  obtain ⟨hnd, hlen, hcnt⟩ := hinv
  unfold addEntry
  cases hl : Grp.alookup pid s.data with
  | none =>
    dsimp only
    by_cases hfull : s.data.length ≥ s.maxTracked
    · rw [if_pos hfull]
      exact ⟨hnd, hlen, hcnt⟩
    · rw [if_neg hfull]
      have hmem : pid ∉ s.data.map Prod.fst := by
        intro hm
        obtain ⟨v, hv⟩ := Grp.alookup_mem_keys_some hm
        rw [hl] at hv
        cases hv
      refine ⟨Grp.nodup_ainsert_keys _ _ hnd, ?_, ?_⟩
      · intro pid' l' hl'
        dsimp only at hl' ⊢
        by_cases hp : pid' = pid
        · subst hp
          rw [Grp.alookup_ainsert_self] at hl'
          injection hl' with h2
          rw [← h2]
          exact trimHist_length_le (by simp)
        · rw [Grp.alookup_ainsert_ne _ _ hp] at hl'
          exact hlen _ _ hl'
      · dsimp only
        rw [Grp.ainsert_length_of_not_mem _ _ hmem]
        omega
  | some l =>
    refine ⟨?_, ?_, ?_⟩
    · dsimp only
      rw [Grp.amodify_keys]
      exact hnd
    · intro pid' l' hl'
      dsimp only at hl' ⊢
      by_cases hp : pid' = pid
      · subst hp
        rw [Grp.alookup_amodify_self, hl] at hl'
        simp only [Option.map_some'] at hl'
        injection hl' with h2
        rw [← h2]
        refine trimHist_length_le ?_
        have := hlen _ _ hl
        simpa using this
      · rw [Grp.alookup_amodify_ne _ _ hp] at hl'
        exact hlen _ _ hl'
    · dsimp only
      rw [Grp.amodify_length]
      exact hcnt

theorem HistInv_applyPushes (ps : List (Int × ℚ × Nat × Nat)) {s : HistState}
    (h : HistInv s) : HistInv (applyPushes ps s) := by
  induction ps generalizing s with
  | nil => exact h
  | cons q rest ih => exact ih (HistInv_addEntry _ _ _ _ h)

theorem applyPushes_maxEntries (ps : List (Int × ℚ × Nat × Nat)) (s : HistState) :
    (applyPushes ps s).maxEntries = s.maxEntries := by
  induction ps generalizing s with
  | nil => rfl
  | cons q rest ih =>
    show (applyPushes rest (addEntry q.1 q.2.1 q.2.2.1 q.2.2.2 s)).maxEntries = s.maxEntries
    rw [ih, addEntry_maxEntries]

theorem applyPushes_maxTracked (ps : List (Int × ℚ × Nat × Nat)) (s : HistState) :
    (applyPushes ps s).maxTracked = s.maxTracked := by
  induction ps generalizing s with
  | nil => rfl
  | cons q rest ih =>
    show (applyPushes rest (addEntry q.1 q.2.1 q.2.2.1 q.2.2.2 s)).maxTracked = s.maxTracked
    rw [ih, addEntry_maxTracked]

/-- Every stored per-pid list has non-increasing timestamps front to back
(most recent first). -/
def entriesSortedDesc (s : HistState) : Prop :=
  ∀ pid l, Grp.alookup pid s.data = some l →
    l.Chain' (fun a b => b.timestamp ≤ a.timestamp)

/-- Every stored timestamp is at most `T`. -/
def entriesBelow (T : Nat) (s : HistState) : Prop :=
  ∀ pid l, Grp.alookup pid s.data = some l → ∀ e ∈ l, e.timestamp ≤ T

theorem trimHist_chain {maxE : Nat} {l : List HistoryEntry}
    (h : l.Chain' (fun a b => b.timestamp ≤ a.timestamp)) :
    (trimHist maxE l).Chain' (fun a b => b.timestamp ≤ a.timestamp) := by
  unfold trimHist
  split
  · rw [List.dropLast_eq_take]
    exact h.take _
  · exact h

theorem trimHist_subset {maxE : Nat} {l : List HistoryEntry} {e : HistoryEntry}
    (h : e ∈ trimHist maxE l) : e ∈ l := by
  unfold trimHist at h
  split at h
  · exact List.mem_of_mem_dropLast h
  · exact h

theorem sortedDesc_below_addEntry {s : HistState} {T : Nat} (pid : Int)
    (cpu : ℚ) (mem : Nat) {now : Nat}
    (hs : entriesSortedDesc s) (hb : entriesBelow T s) (hT : T ≤ now) :
    entriesSortedDesc (addEntry pid cpu mem now s)
    ∧ entriesBelow now (addEntry pid cpu mem now s) := by
  have hb' : entriesBelow now s := fun pid' l hl e he => le_trans (hb pid' l hl e he) hT
  unfold addEntry
  cases hl : Grp.alookup pid s.data with
  | none =>
    dsimp only
    by_cases hfull : s.data.length ≥ s.maxTracked
    · rw [if_pos hfull]
      exact ⟨hs, hb'⟩
    · rw [if_neg hfull]
      constructor
      · intro pid' l' hl'
        dsimp only at hl'
        by_cases hp : pid' = pid
        · subst hp
          rw [Grp.alookup_ainsert_self] at hl'
          injection hl' with h2
          rw [← h2]
          exact trimHist_chain (by simp)
        · rw [Grp.alookup_ainsert_ne _ _ hp] at hl'
          exact hs _ _ hl'
      · intro pid' l' hl' e he
        dsimp only at hl'
        by_cases hp : pid' = pid
        · subst hp
          rw [Grp.alookup_ainsert_self] at hl'
          injection hl' with h2
          rw [← h2] at he
          have := trimHist_subset he
          simp only [List.mem_singleton] at this
          rw [this]
        · rw [Grp.alookup_ainsert_ne _ _ hp] at hl'
          exact hb' _ _ hl' e he
  | some l =>
    constructor
    · intro pid' l' hl'
      dsimp only at hl'
      by_cases hp : pid' = pid
      · subst hp
        rw [Grp.alookup_amodify_self, hl] at hl'
        simp only [Option.map_some'] at hl'
        injection hl' with h2
        rw [← h2]
        refine trimHist_chain (List.chain'_cons'.mpr ⟨?_, hs _ _ hl⟩)
        intro b hbm
        exact le_trans (hb _ _ hl b (List.mem_of_mem_head? hbm)) hT
      · rw [Grp.alookup_amodify_ne _ _ hp] at hl'
        exact hs _ _ hl'
    · intro pid' l' hl' e he
      dsimp only at hl'
      by_cases hp : pid' = pid
      · subst hp
        rw [Grp.alookup_amodify_self, hl] at hl'
        simp only [Option.map_some'] at hl'
        injection hl' with h2
        rw [← h2] at he
        rcases List.mem_cons.mp (trimHist_subset he) with h3 | h3
        · rw [h3]
        · exact hb' _ _ hl e h3
      · rw [Grp.alookup_amodify_ne _ _ hp] at hl'
        exact hb' _ _ hl' e he

theorem sortedDesc_applyPushes :
    ∀ (ps : List (Int × ℚ × Nat × Nat)) (s : HistState) (T : Nat),
    entriesSortedDesc s → entriesBelow T s →
    (∀ q ∈ ps, T ≤ q.2.2.2) →
    ps.Pairwise (fun a b => a.2.2.2 ≤ b.2.2.2) →
    entriesSortedDesc (applyPushes ps s) := by
  intro ps
  induction ps with
  | nil => intro s T hs _ _ _; exact hs
  | cons q rest ih =>
    intro s T hs hb hall hmono
    obtain ⟨hs1, hb1⟩ := sortedDesc_below_addEntry q.1 q.2.1 q.2.2.1 hs hb
      (hall q (List.mem_cons_self q rest))
    have hrest := (List.pairwise_cons.mp hmono)
    exact ih (addEntry q.1 q.2.1 q.2.2.1 q.2.2.2 s) q.2.2.2 hs1 hb1 hrest.1 hrest.2

/-- C8 (amended): `ProcessHistory::getEntries` returns entries **newest
first**: for pushes applied in non-decreasing timestamp order, the returned
list's timestamps are non-increasing from the first element to the last. -/
theorem C8_entries_newest_first (maxE maxT : Nat)
    (ps : List (Int × ℚ × Nat × Nat))
    (hmono : ps.Pairwise (fun a b => a.2.2.2 ≤ b.2.2.2))
    (pid : Int) (count : Nat) :
    (getEntries pid count (applyPushes ps (histInit maxE maxT))).Chain'
      (fun a b => b.timestamp ≤ a.timestamp) := by
  have hs : entriesSortedDesc (applyPushes ps (histInit maxE maxT)) := by
    refine sortedDesc_applyPushes ps (histInit maxE maxT) 0 ?_ ?_ ?_ hmono
    · intro pid' l hl
      simp [histInit, Grp.alookup] at hl
    · intro pid' l hl
      simp [histInit, Grp.alookup] at hl
    · intro q _
      exact Nat.zero_le _
  unfold getEntries
  cases hl : Grp.alookup pid (applyPushes ps (histInit maxE maxT)).data with
  | none => simp
  | some l => exact (hs _ _ hl).take _

/-- Counterexample to C8 as stated: two pushes for pid 7 at times 100 then
200 are returned as [t=200, t=100] — newest first, not oldest first. -/
theorem C8_counterexample :
    getEntries 7 60 (addEntry 7 2 0 200 (addEntry 7 1 0 100 (histInit 60 100))) =
      [⟨2, 0, 200⟩, ⟨1, 0, 100⟩]
    ∧ decide ((200 : Nat) ≤ 100) = false := by
  constructor
  · rfl
  · rfl

/-- Witness for C8 (amended) on a concrete push sequence. -/
theorem C8_witness :
    (getEntries 7 60 (applyPushes [(7, 1, 0, 100), (7, 2, 0, 200)]
        (histInit 60 100))).Chain' (fun a b => b.timestamp ≤ a.timestamp) :=
  C8_entries_newest_first 60 100 [(7, 1, 0, 100), (7, 2, 0, 200)] (by decide) 7 60

/-- C9: after any sequence of pushes, each per-pid list holds at most
`max_entries_per_process` entries, at most `max_tracked_processes` pids are
tracked, and a push for a new pid with the tracker full is a no-op. -/
theorem C9_history_bounds (maxE maxT : Nat) (ps : List (Int × ℚ × Nat × Nat)) :
    (∀ pid l, Grp.alookup pid (applyPushes ps (histInit maxE maxT)).data = some l →
      l.length ≤ maxE)
    ∧ (∀ pid count,
        (getEntries pid count (applyPushes ps (histInit maxE maxT))).length ≤ maxE)
    ∧ (applyPushes ps (histInit maxE maxT)).data.length ≤ maxT
    ∧ (∀ (pid : Int) (cpu : ℚ) (mem now : Nat) (s : HistState),
        Grp.alookup pid s.data = none → s.data.length ≥ s.maxTracked →
        addEntry pid cpu mem now s = s) := by
  have hinv : HistInv (applyPushes ps (histInit maxE maxT)) := by
    refine HistInv_applyPushes ps ⟨by simp [histInit], ?_, by simp [histInit]⟩
    intro pid l hl
    simp [histInit, Grp.alookup] at hl
  obtain ⟨hnd, hlen, hcnt⟩ := hinv
  have hME := applyPushes_maxEntries ps (histInit maxE maxT)
  have hMT := applyPushes_maxTracked ps (histInit maxE maxT)
  refine ⟨?_, ?_, ?_, ?_⟩
  · intro pid l hl
    have := hlen _ _ hl
    rwa [hME] at this
  · intro pid count
    unfold getEntries
    cases hl : Grp.alookup pid (applyPushes ps (histInit maxE maxT)).data with
    | none => simp
    | some l =>
      have h1 := hlen _ _ hl
      rw [hME] at h1
      calc (l.take count).length ≤ l.length := by
            rw [List.length_take]
            omega
        _ ≤ maxE := h1
  · rwa [hMT] at hcnt
  · intro pid cpu mem now s hl hfull
    unfold addEntry
    rw [hl]
    dsimp only
    rw [if_pos hfull]

/-- Witness for C9: three pushes with caps (2 entries, 1 pid): the stored
list stays at 2 entries, and a push for fresh pid 8 with the tracker full
changes nothing. -/
theorem C9_witness :
    (getEntries 7 60 (applyPushes [(7, 1, 0, 1), (7, 2, 0, 2), (7, 3, 0, 3)]
        (histInit 2 1))).length ≤ 2
    ∧ addEntry 8 1 0 4 (applyPushes [(7, 1, 0, 1), (7, 2, 0, 2), (7, 3, 0, 3)]
        (histInit 2 1)) =
      applyPushes [(7, 1, 0, 1), (7, 2, 0, 2), (7, 3, 0, 3)] (histInit 2 1) := by
  have hc := C9_history_bounds 2 1 [(7, 1, 0, 1), (7, 2, 0, 2), (7, 3, 0, 3)]
  exact ⟨hc.2.1 7 60, hc.2.2.2 8 1 0 4 _ (by decide) (by decide)⟩

end Hist

namespace Auth

/-- C1 (code bug): `ValidateLogin` never consults the username: its result
is the same for every caller-supplied username, a stored record for "bob"
authenticates a caller claiming to be "alice" when the password hashes to
bob's stored hash, and only a Bool (no role) is produced; the claim's
validate (`validateSpec`) returns `none` on the same input. -/
theorem C1_validate_ignores_username :
    (∀ (crypt : String → String → String) (file : Option (List String)) (u1 u2 pw : String),
      ValidateLogin crypt file u1 pw = ValidateLogin crypt file u2 pw)
    ∧ ValidateLogin cryptDemo (some ["bob:S#pw:S:1"]) "alice" "pw" = true
    ∧ validateSpec cryptDemo (some ["bob:S#pw:S:1"]) "alice" "pw" = none := by
  exact ⟨fun _ _ _ _ _ => rfl, by decide, by decide⟩

end Auth

/-! ## Process registry (`src/src/ProcessCore.cpp`, `src/src/proc_core.c`)

`collectInfo` clears the table, then walks the `/proc` entries; the walk is
abstracted by an optional list of directory names (`none` = the process
filesystem is inaccessible, which the source turns into an exception caught
as `return -1`) and a per-pid read oracle. -/

namespace Core

/-- `qnx::core::ProcessInfo` (fields relevant to the claims; the default
constructor zero-initialises `cpu_usage_`). -/
structure ProcessInfo where
  pid : Int
  name : String
  memory_usage : Nat
  cpu_usage : ℚ
  priority : Int
  policy : Int
  num_threads : Nat
  state : Int
  start_time : Nat
  deriving DecidableEq, Repr

/-- The registry's state: `process_list_`. -/
structure CoreState where
  process_list : List ProcessInfo
  deriving DecidableEq, Repr

/-- `std::stoi` on a digit-led directory name: its leading digit run. -/
def stoiPrefix (cs : List Char) : Int :=
  (cs.takeWhile Char.isDigit).foldl (fun a c => a * 10 + ((c.toNat : Int) - 48)) (0 : Int)

/-- The entry filter of `collectInfo`: skip names that are empty or do not
start with a digit. -/
def keepEntry (nm : String) : Bool :=
  match nm.data with
  | [] => false
  | c :: _ => c.isDigit

/-- `ProcessCore::collectInfo`: clears `process_list_` first, then either
aborts with -1 (inaccessible process filesystem, leaving the cleared list)
or rebuilds the list from the readable pid entries. -/
def collectInfo (proc_entries : Option (List String))
    (readProcessInfo : Int → Option ProcessInfo) (_s : CoreState) :
    Int × CoreState :=
  match proc_entries with
  | none => (-1, { process_list := [] })
  | some entries =>
    let l := (entries.filter keepEntry).filterMap
      (fun nm => readProcessInfo (stoiPrefix nm.data))
    ((l.length : Int), { process_list := l })

/-- `ProcessCore::getProcessById`: first list entry with the pid. -/
def getProcessById (pid : Int) (s : CoreState) : Option ProcessInfo :=
  s.process_list.find? (fun info => info.pid == pid)

/-- The CPU-percent computation of `proc_collect_info` (`src/src/proc_core.c`):
with a previous cumulative-CPU sample (seconds) and the elapsed wall time
since the last scan (seconds), the raw ratio is capped above at 100; without
a previous sample, or with non-positive elapsed time, the result is 0. -/
def cpuPercentC (prev : Option ℚ) (cur elapsed : ℚ) : ℚ :=
  match prev with
  | some prev_time =>
    let delta_time := cur - prev_time
    if 0 < elapsed then
      let v := delta_time / elapsed * 100
      if v > 100 then 100 else v
    else 0
  | none => 0

/-- The CPU-percent computation of `ProcessCore::readProcessCpu`
(`src/src/ProcessCore.cpp`): on any sample after the first it divides the
process's **total** cumulative CPU time (`pstatus.sutime`, nanoseconds) by
the wall milliseconds since the previous call — no delta of the cumulative
counter is taken; the first sample leaves the constructor's 0. -/
def cpuPercentCpp (hasLastTime : Bool) (sutime_ns duration_ms : ℚ) : ℚ :=
  if hasLastTime then sutime_ns / 1000000 / duration_ms * 100 else 0

/-- The claim's formula: clamp the cumulative delta at 0, divide by elapsed
time, times 100, divided by the CPU count; 0 for a first sample. -/
def cpuPercentSpec (prev : Option ℚ) (cur elapsed ncpu : ℚ) : ℚ :=
  match prev with
  | some p => (max (cur - p) 0) / elapsed * 100 / ncpu
  | none => 0

/-- A sample record for counterexamples. -/
def procDemo : ProcessInfo := ⟨1, "init", 0, 0, 0, 0, 1, 0, 0⟩

/-- C3 (amended): a failed scan returns -1 with the process table cleared —
readers then see an empty table, not the previous snapshot. -/
theorem C3_failed_scan_clears_table (readInfo : Int → Option ProcessInfo)
    (s : CoreState) :
    (collectInfo none readInfo s).1 = -1
    ∧ (collectInfo none readInfo s).2.process_list = []
    ∧ (∀ pid, getProcessById pid (collectInfo none readInfo s).2 = none) := by
  exact ⟨rfl, rfl, fun pid => rfl⟩

/-- Counterexample to C3 as stated: with one record in the table, a failed
scan leaves an empty table, not the previous snapshot. -/
theorem C3_counterexample :
    (collectInfo none (fun _ => none) ⟨[procDemo]⟩).1 = -1
    ∧ (collectInfo none (fun _ => none) ⟨[procDemo]⟩).2.process_list = []
    ∧ decide (([] : List ProcessInfo) = [procDemo]) = false := by
  exact ⟨rfl, rfl, rfl⟩

/-- C4 (amended): with a previous cumulative sample and positive elapsed
time, `proc_collect_info` reports `min 100 ((cur − prev)/elapsed × 100)` —
capped at 100, no division by the CPU count, and a negative delta is not
clamped to 0; a first sample reports 0.  The claim's formula agrees only
when the delta is non-negative, the ratio is within 100, and `ncpu = 1`. -/
theorem C4_cpu_percent_formula (prev cur elapsed ncpu : ℚ) :
    cpuPercentC (some prev) cur elapsed =
      (if 0 < elapsed then min 100 ((cur - prev) / elapsed * 100) else 0)
    ∧ cpuPercentC none cur elapsed = 0
    ∧ (0 < elapsed → 0 ≤ cur - prev → (cur - prev) / elapsed * 100 ≤ 100 → ncpu = 1 →
        cpuPercentC (some prev) cur elapsed = cpuPercentSpec (some prev) cur elapsed ncpu) := by
  refine ⟨?_, rfl, ?_⟩
  · unfold cpuPercentC
    dsimp only
    by_cases he : 0 < elapsed
    · rw [if_pos he, if_pos he]
      by_cases hv : (cur - prev) / elapsed * 100 > 100
      · rw [if_pos hv, min_eq_left (le_of_lt hv)]
      · rw [if_neg hv, min_eq_right (not_lt.mp hv)]
    · rw [if_neg he, if_neg he]
  · intro he hd hb hn
    unfold cpuPercentC cpuPercentSpec
    dsimp only
    rw [if_pos he, if_neg (not_lt.mpr hb), hn, max_eq_left hd, div_one]

/-- Witness for C4 (amended) at prev = 1, cur = 2, elapsed = 2, ncpu = 1. -/
theorem C4_witness :
    cpuPercentC (some 1) 2 2 = cpuPercentSpec (some 1) 2 2 1
    ∧ cpuPercentC none 2 2 = 0 := by
  have hc := C4_cpu_percent_formula 1 2 2 1
  refine ⟨hc.2.2 (by norm_num) (by norm_num) ?_ rfl, hc.2.1⟩
  norm_num

/-- Counterexample to C4 as stated: (a) in `proc_core.c`, prev = 1 s,
cur = 3 s over 1 s on a 4-CPU host: the claim's formula gives 50, the code
caps the un-normalized ratio at 100; (b) in `ProcessCore.cpp`, a process
with 2 s of lifetime CPU that used none between two samples 1 s apart
reports 200, where the claim requires 0. -/
theorem C4_counterexample :
    cpuPercentC (some 1) 3 1 = 100
    ∧ cpuPercentSpec (some 1) 3 1 4 = 50
    ∧ decide ((100 : ℚ) = 50) = false
    ∧ cpuPercentCpp true 2000000000 1000 = 200
    ∧ cpuPercentSpec (some 2000000000) 2000000000 1000000000 4 = 0 := by
  refine ⟨?_, ?_, rfl, ?_, ?_⟩ <;> norm_num [cpuPercentC, cpuPercentSpec, cpuPercentCpp]

end Core

/-! ## Wire framing (`src/src/server/SocketServer.cpp`, `src/src/socket_server.c`) -/

namespace Net

/-- Bytes written to the socket by `SocketServer::send` for a message: the
raw message bytes and nothing else (`::send(client_socket, message.c_str(),
message.length(), 0)`).  `socket_server_send` in `socket_server.c` does the
same. -/
def socketSend (message : List Nat) : List Nat := message

/-- 4-byte big-endian encoding of an unsigned length. -/
def be32 (n : Nat) : List Nat :=
  [n / 2 ^ 24 % 256, n / 2 ^ 16 % 256, n / 2 ^ 8 % 256, n % 256]

/-- The wire format the claim (and the `send` doc comment) requires: the
payload preceded by its 4-byte big-endian byte length.  Written from the
spec's words. -/
def specFrame (payload : List Nat) : List Nat := be32 payload.length ++ payload

/-- C5 (code bug): sending the 2-byte payload "hi" puts exactly the bytes
`[104, 105]` on the wire, not `[0, 0, 0, 2, 104, 105]`: no length prefix is
written although the function's own doc comment says one is prepended. -/
theorem C5_send_writes_no_length_prefix :
    socketSend [104, 105] = [104, 105]
    ∧ specFrame [104, 105] = [0, 0, 0, 2, 104, 105]
    ∧ decide (socketSend [104, 105] = specFrame [104, 105]) = false := by
  exact ⟨rfl, rfl, rfl⟩

end Net

/-! ## Request handler (`src/src/main.cpp`, `messageHandler`)

The decoded JSON request and the encoded JSON reply are modelled
structurally; the reply object lists the encoder calls in order.  OS signal
delivery and credential validation are oracles; history mutation (the
`GetDetailedProcessDetails` push) is returned as the new history state. -/

namespace Srv

/-- Encoded reply values (the value shapes `messageHandler` ever emits). -/
inductive JVal where
  | s (v : String)
  | i (v : Int)
  | q (v : ℚ)
  | b (v : Bool)
  | ints (v : List Int)
  | entries (v : List (ℚ × Nat × Nat))
  deriving DecidableEq, Repr

/-- A reply object: encoder fields in emission order. -/
abbrev JObj := List (String × JVal)

/-- A decoded request: fields the handler reads, `none` when absent. -/
structure Request where
  request_type : Option String
  pid : Option Int
  username : Option String
  password : Option String
  deriving DecidableEq, Repr

/-- Observable side effects of one request: the signals sent through
`ProcessControl`. -/
inductive Effect where
  | sigSuspend (pid : Int)
  | sigResume (pid : Int)
  | sigTerm (pid : Int)
  deriving DecidableEq, Repr

/-- Results of `ProcessControl::{suspend, resume, terminate}`. -/
structure OsOracle where
  suspendOk : Int → Bool
  resumeOk : Int → Bool
  termOk : Int → Bool

/-- `create_error_response`: `{"error": ..., "details": ...}` — note the
keys. -/
def create_error_response (error details : String) : JObj :=
  [("error", JVal.s error), ("details", JVal.s details)]

def MSG_GET_PROCESSES : String := "GetProcesses"

def MSG_GET_SIMPLE_DETAILS : String := "GetSimpleProcessDetails"

def MSG_GET_DETAILED_DETAILS : String := "GetDetailedProcessDetails"

def MSG_SUSPEND_PROCESS : String := "SuspendProcess"

/-- Modelled from the spec: `qnx::network::MSG_RESUME_PROCESS` is declared
in a header revision absent from the source tree; the spec's command table
names the verb `ResumeProcess`. -/
def MSG_RESUME_PROCESS : String := "ResumeProcess"

/-- Modelled from the spec: `qnx::network::MSG_TERMINATE_PROCESS` is
declared in a header revision absent from the source tree; the spec's
command table names the verb `TerminateProcess`. -/
def MSG_TERMINATE_PROCESS : String := "TerminateProcess"

/-- Modelled from the spec: `qnx::network::MSG_AUTH_LOGIN` is declared in a
header revision absent from the source tree; the spec's command table names
the verb `Login`. -/
def MSG_AUTH_LOGIN : String := "Login"

/-- `messageHandler` (`src/src/main.cpp` lines 96–306): parses the request,
echoes `request_type`, dispatches on it and performs the side effects of
control commands.  There is no session state and no authentication check of
any kind: `client_socket` is unused and no record is kept of whether a
`Login` ever succeeded. -/
def messageHandler (core : Core.CoreState) (hist : Hist.HistState)
    (os : OsOracle) (validate : String → String → Bool) (now : Nat)
    (req : Option Request) : JObj × List Effect × Hist.HistState :=
  match req with
  | none =>
    (create_error_response "Invalid JSON format" "Failed to parse JSON request", [], hist)
  | some r =>
    match r.request_type with
    | none =>
      (create_error_response "Missing or invalid 'request_type'"
        "Request type must be a string", [], hist)
    | some rt =>
      if rt = MSG_GET_PROCESSES then
        ([("request_type", JVal.s rt),
          ("pids", JVal.ints (core.process_list.map (fun p => p.pid)))], [], hist)
      else if rt = MSG_GET_SIMPLE_DETAILS then
        match r.pid with
        | none =>
          (create_error_response "Missing or invalid 'PID'" "PID must be an integer", [], hist)
        | some pid =>
          match Core.getProcessById pid core with
          | some info =>
            ([("request_type", JVal.s rt), ("pid", JVal.i pid),
              ("name", JVal.s info.name), ("cpu_usage", JVal.q info.cpu_usage),
              ("ram_usage", JVal.i (info.memory_usage : Int)),
              ("uptime", JVal.i ((now : Int) - (info.start_time : Int)))], [], hist)
          | none =>
            ([("request_type", JVal.s rt), ("pid", JVal.i pid),
              ("error", JVal.s "Process not found")], [], hist)
      else if rt = MSG_GET_DETAILED_DETAILS then
        match r.pid with
        | none =>
          (create_error_response "Missing or invalid 'PID'" "PID must be an integer", [], hist)
        | some pid =>
          let hist' :=
            match Core.getProcessById pid core with
            | some info => Hist.addEntry pid info.cpu_usage info.memory_usage now hist
            | none => hist
          let entries := Hist.getEntries pid 60 hist'
          ([("request_type", JVal.s rt), ("pid", JVal.i pid),
            ("entries", JVal.entries (entries.map
              (fun e => (e.cpu_usage, e.memory_usage, e.timestamp))))], [], hist')
      else if rt = MSG_SUSPEND_PROCESS then
        match r.pid with
        | none =>
          (create_error_response "Missing or invalid 'PID'" "PID must be an integer", [], hist)
        | some pid =>
          ([("request_type", JVal.s rt), ("pid", JVal.i pid),
            ("success", JVal.b (os.suspendOk pid))], [Effect.sigSuspend pid], hist)
      else if rt = MSG_RESUME_PROCESS then
        match r.pid with
        | none =>
          (create_error_response "Missing or invalid 'PID'" "PID must be an integer", [], hist)
        | some pid =>
          ([("request_type", JVal.s rt), ("pid", JVal.i pid),
            ("success", JVal.b (os.resumeOk pid))], [Effect.sigResume pid], hist)
      else if rt = MSG_TERMINATE_PROCESS then
        match r.pid with
        | none =>
          (create_error_response "Missing or invalid 'PID'" "PID must be an integer", [], hist)
        | some pid =>
          ([("request_type", JVal.s rt), ("pid", JVal.i pid),
            ("success", JVal.b (os.termOk pid))], [Effect.sigTerm pid], hist)
      else if rt = MSG_AUTH_LOGIN then
        match r.username, r.password with
        | some u, some pw =>
          ([("request_type", JVal.s rt),
            ("authenticated", JVal.b (validate u pw))], [], hist)
        | _, _ =>
          (create_error_response "Missing or invalid credentials"
            "Both username and password must be provided as strings", [], hist)
      else
        (create_error_response "Unknown request type"
          ("Request type '" ++ rt ++ "' is not recognized"), [], hist)

/-- The reply the claim requires for a non-Login command in the
unauthenticated state. -/
def isNotAuthError (resp : JObj) : Bool :=
  (resp.contains ("status", JVal.s "error"))
    && (resp.contains ("message", JVal.s "not authenticated"))

/-- A `TerminateProcess` request for a pid. -/
def termReq (pid : Int) : Request := ⟨some MSG_TERMINATE_PROCESS, some pid, none, none⟩

/-- C2 (amended): `messageHandler` keeps no authentication state and has no
authentication gate: no request ever produces the
`{status:"error", message:"not authenticated"}` reply, and the control and
listing commands are dispatched — with their side effects — for every
session, logged in or not. -/
theorem C2_no_auth_gate (core : Core.CoreState) (hist : Hist.HistState)
    (os : OsOracle) (validate : String → String → Bool) (now : Nat) :
    (∀ req, isNotAuthError (messageHandler core hist os validate now req).1 = false)
    ∧ (∀ pid, messageHandler core hist os validate now (some (termReq pid)) =
        ([("request_type", JVal.s MSG_TERMINATE_PROCESS), ("pid", JVal.i pid),
          ("success", JVal.b (os.termOk pid))], [Effect.sigTerm pid], hist))
    ∧ (∀ pid, messageHandler core hist os validate now
          (some ⟨some MSG_SUSPEND_PROCESS, some pid, none, none⟩) =
        ([("request_type", JVal.s MSG_SUSPEND_PROCESS), ("pid", JVal.i pid),
          ("success", JVal.b (os.suspendOk pid))], [Effect.sigSuspend pid], hist))
    ∧ (∀ pid, messageHandler core hist os validate now
          (some ⟨some MSG_RESUME_PROCESS, some pid, none, none⟩) =
        ([("request_type", JVal.s MSG_RESUME_PROCESS), ("pid", JVal.i pid),
          ("success", JVal.b (os.resumeOk pid))], [Effect.sigResume pid], hist))
    ∧ (messageHandler core hist os validate now
          (some ⟨some MSG_GET_PROCESSES, none, none, none⟩) =
        ([("request_type", JVal.s MSG_GET_PROCESSES),
          ("pids", JVal.ints (core.process_list.map (fun p => p.pid)))], [], hist)) := by
  refine ⟨?_, fun pid => rfl, fun pid => rfl, fun pid => rfl, rfl⟩
  intro req
  match req with
  | none => rfl
  | some ⟨none, pid?, u?, p?⟩ => rfl
  | some ⟨some rt, pid?, u?, p?⟩ =>
    unfold messageHandler
    dsimp only
    by_cases h1 : rt = MSG_GET_PROCESSES
    · rw [if_pos h1]
      rfl
    · rw [if_neg h1]
      by_cases h2 : rt = MSG_GET_SIMPLE_DETAILS
      · rw [if_pos h2]
        cases pid? with
        | none => rfl
        | some pid =>
          dsimp only
          cases Core.getProcessById pid core with
          | none => rfl
          | some info => rfl
      · rw [if_neg h2]
        by_cases h3 : rt = MSG_GET_DETAILED_DETAILS
        · rw [if_pos h3]
          cases pid? with
          | none => rfl
          | some pid =>
            dsimp only
            cases Core.getProcessById pid core with
            | none => rfl
            | some info => rfl
        · rw [if_neg h3]
          by_cases h4 : rt = MSG_SUSPEND_PROCESS
          · rw [if_pos h4]
            cases pid? with
            | none => rfl
            | some pid => rfl
          · rw [if_neg h4]
            by_cases h5 : rt = MSG_RESUME_PROCESS
            · rw [if_pos h5]
              cases pid? with
              | none => rfl
              | some pid => rfl
            · rw [if_neg h5]
              by_cases h6 : rt = MSG_TERMINATE_PROCESS
              · rw [if_pos h6]
                cases pid? with
                | none => rfl
                | some pid => rfl
              · rw [if_neg h6]
                by_cases h7 : rt = MSG_AUTH_LOGIN
                · rw [if_pos h7]
                  cases u? with
                  | none =>
                    cases p? with
                    | none => rfl
                    | some pw => rfl
                  | some u =>
                    cases p? with
                    | none => rfl
                    | some pw => rfl
                · rw [if_neg h7]
                  rfl

/-- Counterexample to C2 as stated: a session that has never authenticated
(the credential check rejects everything) sends `TerminateProcess` for
pid 1; the handler sends the termination signal and replies with a normal
success object — not `{status:"error", message:"not authenticated"}` and
not effect-free. -/
theorem C2_counterexample :
    messageHandler ⟨[]⟩ (Hist.histInit 60 100)
        ⟨fun _ => true, fun _ => true, fun _ => true⟩ (fun _ _ => false) 0
        (some (termReq 1)) =
      ([("request_type", JVal.s "TerminateProcess"), ("pid", JVal.i 1),
        ("success", JVal.b true)], [Effect.sigTerm 1], Hist.histInit 60 100)
    ∧ isNotAuthError (messageHandler ⟨[]⟩ (Hist.histInit 60 100)
        ⟨fun _ => true, fun _ => true, fun _ => true⟩ (fun _ _ => false) 0
        (some (termReq 1))).1 = false
    ∧ ((messageHandler ⟨[]⟩ (Hist.histInit 60 100)
        ⟨fun _ => true, fun _ => true, fun _ => true⟩ (fun _ _ => false) 0
        (some (termReq 1))).2.1).isEmpty = false := by
  exact ⟨by decide, by decide, by decide⟩

end Srv

/-! ### The C ring variant (`src/src/proc_history.c`)

One pid's `proc_history_t`: a fixed 60-slot ring written at `next_entry`,
read back in chronological order by `proc_history_get_entries`.  This is
the variant that returns entries oldest-first (supporting the corrected
reading of the history-order claim). -/

namespace Hist

/-- `proc_history.h`: `MAX_HISTORY_ENTRIES`. -/
def MAX_HISTORY_ENTRIES : Nat := 60

/-- One `proc_history_t`'s ring: the fixed `entries` array (a function on
indices), `entry_count` and `next_entry`. -/
structure CRing where
  entries : Nat → HistoryEntry
  entry_count : Nat
  next_entry : Nat

/-- A fresh ring: `calloc` zero-fills the slots and counters. -/
def ringInit : CRing := ⟨fun _ => ⟨0, 0, 0⟩, 0, 0⟩

/-- The per-ring body of `proc_history_add_entry`: write at `next_entry`,
saturate `entry_count` at the cap, advance `next_entry` cyclically. -/
def ringAdd (e : HistoryEntry) (s : CRing) : CRing :=
  { entries := fun i => if i = s.next_entry then e else s.entries i
    entry_count :=
      if s.entry_count < MAX_HISTORY_ENTRIES then s.entry_count + 1 else s.entry_count
    next_entry := (s.next_entry + 1) % MAX_HISTORY_ENTRIES }

/-- The per-ring body of `proc_history_get_entries`: up to `max_entries`
entries copied in chronological order starting at
`(next_entry - entry_count + MAX) % MAX`. -/
def ringGetEntries (max_entries : Nat) (s : CRing) : List HistoryEntry :=
  if s.entry_count = 0 then []
  else
    let n := if max_entries < s.entry_count then max_entries else s.entry_count
    let start := (s.next_entry + MAX_HISTORY_ENTRIES - s.entry_count) % MAX_HISTORY_ENTRIES
    (List.range n).map (fun i => s.entries ((start + i) % MAX_HISTORY_ENTRIES))

/-- A sequence of adds applied to a fresh ring. -/
def ringPushAll (es : List HistoryEntry) : CRing :=
  es.foldl (fun s e => ringAdd e s) ringInit

/-- The ring after pushing `es` holds the last `min |es| 60` pushes, in
push order. -/
def RingRep (es : List HistoryEntry) (s : CRing) : Prop :=
  s.entry_count = min es.length MAX_HISTORY_ENTRIES
  ∧ s.next_entry = es.length % MAX_HISTORY_ENTRIES
  ∧ ∀ i, i < s.entry_count →
      s.entries ((es.length + MAX_HISTORY_ENTRIES - s.entry_count + i) % MAX_HISTORY_ENTRIES)
        = es.getD (es.length - s.entry_count + i) ⟨0, 0, 0⟩

theorem RingRep_ringAdd {es : List HistoryEntry} {s : CRing} (e : HistoryEntry)
    (h : RingRep es s) : RingRep (es ++ [e]) (ringAdd e s) := by
  obtain ⟨hc, hn, hrep⟩ := h
  have hM : MAX_HISTORY_ENTRIES = 60 := rfl
  have hcount' : (ringAdd e s).entry_count = min (es.length + 1) 60 := by
    simp only [ringAdd, hc, hM]
    split <;> omega
  have hnext' : (ringAdd e s).next_entry = (es.length + 1) % 60 := by
    simp only [ringAdd, hn, hM]
    omega
  refine ⟨?_, ?_, ?_⟩
  · rw [hcount']
    simp [hM]
  · rw [hnext']
    simp [hM]
  · intro i hi
    rw [hcount'] at hi
    simp only [List.length_append, List.length_singleton, hM, hcount']
    -- goal: ringAdd-entries applied at position = (es ++ [e]).getD ...
    show (if ((es.length + 1 + 60 - min (es.length + 1) 60 + i) % 60) = s.next_entry then e
          else s.entries ((es.length + 1 + 60 - min (es.length + 1) 60 + i) % 60))
        = (es ++ [e]).getD (es.length + 1 - min (es.length + 1) 60 + i) ⟨0, 0, 0⟩
    rw [hn, hM]
    by_cases hlast : i = min (es.length + 1) 60 - 1
    · have hpos : (es.length + 1 + 60 - min (es.length + 1) 60 + i) % 60 = es.length % 60 := by
        omega
      rw [if_pos hpos]
      have hidx : es.length + 1 - min (es.length + 1) 60 + i = es.length := by omega
      rw [hidx, List.getD_append_right _ _ _ _ (le_refl _)]
      simp
    · have hpos : ¬ ((es.length + 1 + 60 - min (es.length + 1) 60 + i) % 60 = es.length % 60) := by
        omega
      rw [if_neg hpos]
      by_cases hk : es.length < 60
      · have h1 := hrep i (by omega)
        have hpe : (es.length + 1 + 60 - min (es.length + 1) 60 + i) % 60 =
            (es.length + MAX_HISTORY_ENTRIES - s.entry_count + i) % MAX_HISTORY_ENTRIES := by
          rw [hc, hM]
          omega
        rw [hpe, h1, hc, hM]
        have hidx : es.length + 1 - min (es.length + 1) 60 + i = es.length - min es.length 60 + i := by
          omega
        rw [hidx, List.getD_append]
        omega
      · have h1 := hrep (i + 1) (by omega)
        have hpe : (es.length + 1 + 60 - min (es.length + 1) 60 + i) % 60 =
            (es.length + MAX_HISTORY_ENTRIES - s.entry_count + (i + 1)) % MAX_HISTORY_ENTRIES := by
          rw [hc, hM]
          omega
        rw [hpe, h1, hc, hM]
        have hidx : es.length + 1 - min (es.length + 1) 60 + i = es.length - min es.length 60 + (i + 1) := by
          omega
        rw [hidx, List.getD_append]
        omega

theorem RingRep_ringPushAll (es : List HistoryEntry) : RingRep es (ringPushAll es) := by
  induction es using List.reverseRecOn with
  | nil =>
    refine ⟨rfl, rfl, ?_⟩
    intro i hi
    simp [ringInit, ringPushAll] at hi
  | append_singleton es e ih =>
    have hfold : ringPushAll (es ++ [e]) = ringAdd e (ringPushAll es) := by
      simp [ringPushAll, List.foldl_append]
    rw [hfold]
    exact RingRep_ringAdd e ih

theorem ringGetEntries_eq {es : List HistoryEntry} {s : CRing} (h : RingRep es s)
    (max_entries : Nat) :
    ringGetEntries max_entries s =
      (es.drop (es.length - min es.length MAX_HISTORY_ENTRIES)).take max_entries := by
  obtain ⟨hc, hn, hrep⟩ := h
  have hM : MAX_HISTORY_ENTRIES = 60 := rfl
  by_cases h0 : s.entry_count = 0
  · have hk : es.length = 0 := by
      rw [h0] at hc
      rw [hM] at hc
      omega
    have : es = [] := List.length_eq_zero.mp hk
    subst this
    simp [ringGetEntries, h0]
  · unfold ringGetEntries
    rw [if_neg h0]
    dsimp only
    have hn2 : (if max_entries < s.entry_count then max_entries else s.entry_count) =
        min max_entries s.entry_count := by
      split <;> omega
    rw [hn2]
    refine List.ext_getElem ?_ ?_
    · simp only [List.length_map, List.length_range, List.length_take, List.length_drop]
      rw [hc, hM]
      omega
    · intro i h1 h2
      simp only [List.length_map, List.length_range] at h1
      rw [List.getElem_map, List.getElem_range, List.getElem_take, List.getElem_drop]
      have hi_count : i < s.entry_count := by omega
      have hpe : ((s.next_entry + MAX_HISTORY_ENTRIES - s.entry_count) % MAX_HISTORY_ENTRIES + i) %
          MAX_HISTORY_ENTRIES =
          (es.length + MAX_HISTORY_ENTRIES - s.entry_count + i) % MAX_HISTORY_ENTRIES := by
        rw [hn, hc, hM]
        omega
      rw [hpe, hrep i hi_count]
      have hlt : es.length - s.entry_count + i < es.length := by
        rw [hc, hM] at *
        omega
      rw [List.getD_eq_getElem _ _ hlt]
      congr 1
      rw [hc]

/-- The C ring read is chronological: timestamps are non-decreasing from
the first returned entry to the last (contrast `getEntries`, the C++
variant, which is newest-first). -/
theorem ringGetEntries_chronological (es : List HistoryEntry) (max_entries : Nat)
    (hmono : es.Chain' (fun a b => a.timestamp ≤ b.timestamp)) :
    (ringGetEntries max_entries (ringPushAll es)).Chain'
      (fun a b => a.timestamp ≤ b.timestamp) := by
  rw [ringGetEntries_eq (RingRep_ringPushAll es)]
  exact (hmono.drop _).take _

/-- Reading with the full cap returns exactly the last 60 pushes in push
order. -/
theorem ringGetEntries_last_window (es : List HistoryEntry) :
    ringGetEntries MAX_HISTORY_ENTRIES (ringPushAll es) =
      es.drop (es.length - MAX_HISTORY_ENTRIES) := by
  rw [ringGetEntries_eq (RingRep_ringPushAll es)]
  have hM : MAX_HISTORY_ENTRIES = 60 := rfl
  have h1 : es.length - min es.length MAX_HISTORY_ENTRIES = es.length - MAX_HISTORY_ENTRIES := by
    rw [hM]
    omega
  rw [h1]
  refine List.take_of_length_le ?_
  simp only [List.length_drop]
  omega

end Hist

end RPM
